import Mathlib

set_option maxRecDepth 100000

/-!
Verification development for the garlic-order parsing and packing-list
engine in `src/app.py`.

The Python text pipeline is shallowly embedded over `List Char` (named
`Text` below).  Python regular-expression operations are modelled by
hand-written scanners that reproduce the semantics of the concrete
patterns appearing in the source (leftmost match, greedy quantifiers,
ordered alternation, `re.sub` replacing every non-overlapping match,
`re.IGNORECASE` via `Char.toLower`).  Scanners use an explicit fuel
argument (always instantiated with the text length) so that every
definition is structurally recursive and kernel-evaluable.

Python floats are modelled as rationals (`ℚ`); all weight literals in
the domain are short decimal strings, which `ℚ` represents exactly.
Machine-integer overflow does not arise in the modelled code paths.
-/

/-- Texts are lists of characters; Python `str` values in the source. -/
abbrev Text := List Char

/-- Whitespace test used for the `\s` regex class and `str.strip`
(space, tab, newline, carriage return cover the inputs in scope). -/
def isWsChar (c : Char) : Bool :=
  c == ' ' || c == '\t' || c == '\n' || c == '\r'

/-- Case-insensitive character equality, the effect of `re.IGNORECASE`. -/
def ciEq (a b : Char) : Bool := a.toLower == b.toLower

/-- Case-insensitive literal-prefix test (pattern, then text). -/
def isPrefixCI : Text → Text → Bool
  | [], _ => true
  | _ :: _, [] => false
  | p :: ps, c :: cs => ciEq p c && isPrefixCI ps cs

/-- Case-sensitive literal-prefix test. -/
def isPrefixEx : Text → Text → Bool
  | [], _ => true
  | _ :: _, [] => false
  | p :: ps, c :: cs => (p == c) && isPrefixEx ps cs

/-- Case-sensitive substring test: Python `pat in text`. -/
def containsEx : Text → Text → Bool
  | pat, [] => pat.isEmpty
  | pat, c :: rest => isPrefixEx pat (c :: rest) || containsEx pat rest

/-- Case-insensitive substring test. -/
def containsCI : Text → Text → Bool
  | pat, [] => pat.isEmpty
  | pat, c :: rest => isPrefixCI pat (c :: rest) || containsCI pat rest

/-- Number of leading whitespace characters: a greedy `\s*`. -/
def countWs (t : Text) : Nat := (t.takeWhile isWsChar).length

/-- Python `str.strip`. -/
def stripText (t : Text) : Text :=
  ((t.dropWhile isWsChar).reverse.dropWhile isWsChar).reverse

/-- Lowercase a text: Python `str.lower` (identity on Korean). -/
def textLower (t : Text) : Text := t.map Char.toLower

/-- Value of a digit string, most significant digit first. -/
def digitsToNat (ds : Text) : Nat :=
  ds.foldl (fun n c => n * 10 + (c.toNat - 48)) 0

/-- Digit character for a value below ten. -/
def digitChar (n : Nat) : Char := Char.ofNat (48 + n)

/-- Decimal digits of a natural number (fuel-driven, most significant first). -/
def natReprAux : Nat → Nat → Text
  | 0, _ => []
  | fuel + 1, n => if n < 10 then [digitChar n] else natReprAux fuel (n / 10) ++ [digitChar (n % 10)]

/-- Decimal representation of a natural number, as Python prints an `int`. -/
def natRepr (n : Nat) : Text := natReprAux (n + 1) n

/-- Decimal representation of an integer. -/
def intRepr (i : Int) : Text :=
  if i < 0 then '-' :: natRepr i.natAbs else natRepr i.natAbs

/-- Decimal digits after the point of the fraction `num/den` (`num < den`),
with trailing zeros elided, fuel-bounded.  All fractions met in the
modelled pipeline have ten-smooth denominators, so the expansion is exact. -/
def fracDigitsAux : Nat → Nat → Nat → Text
  | 0, _, _ => []
  | fuel + 1, num, den =>
    if num = 0 then []
    else digitChar (num * 10 / den) :: fracDigitsAux fuel (num * 10 % den) den

/-- Python `repr` of a nonnegative non-integral float, modelled on exact
rationals: integer part, point, then the fractional digits. -/
def ratReprPos (q : ℚ) : Text :=
  let ip := q.num.natAbs / q.den
  let fr := fracDigitsAux 30 (q.num.natAbs % q.den) q.den
  natRepr ip ++ '.' :: (if fr.isEmpty then ['0'] else fr)

/-- Python `f"{result}"` for a float result: sign, then digits. -/
def ratRepr (q : ℚ) : Text :=
  if q < 0 then '-' :: ratReprPos (-q) else ratReprPos q

/-- Python `str(x)` for a float `x`: integral floats gain a trailing
`.0`, other values print their (exact, in our domain) decimal expansion. -/
def pyFloatStr (q : ℚ) : Text :=
  if q.den = 1 then intRepr q.num ++ ['.', '0'] else ratRepr q

/-- Python `float(s)` on a stripped string: optional sign, digits with an
optional decimal point (`d+`, `d+.d*`, `.d+`).  Exponent forms never occur
in the modelled data and are not accepted. -/
def pyFloatCore (t : Text) : Option ℚ :=
  let ds := t.takeWhile Char.isDigit
  let r := t.drop ds.length
  match r with
  | [] => if ds.isEmpty then none else some (digitsToNat ds : ℚ)
  | '.' :: fr =>
    let fs := fr.takeWhile Char.isDigit
    if fr.drop fs.length ≠ [] then none
    else if ds.isEmpty && fs.isEmpty then none
    else some ((digitsToNat ds : ℚ) + (digitsToNat fs : ℚ) / (10 : ℚ) ^ fs.length)
  | _ => none

/-- Python `float(s)`: strips whitespace, handles an optional sign, and
returns `none` where Python raises `ValueError`. -/
def pyFloat (t : Text) : Option ℚ :=
  match stripText t with
  | '-' :: r => (pyFloatCore r).map (fun q => -q)
  | '+' :: r => pyFloatCore r
  | r => pyFloatCore r

/-- Python `int(x)` on a float value: truncation toward zero. -/
def pyInt (q : ℚ) : Int :=
  if q < 0 then -(((-q).num.natAbs / (-q).den : Nat) : Int)
  else ((q.num.natAbs / q.den : Nat) : Int)

/-- Greedy match of `\d+(?:\.\d+)?` at the head of the text: the parsed
value and the number of characters consumed.  The fractional part is
taken only when a digit follows the point, as the regex requires. -/
def parseNumberAt (t : Text) : Option (ℚ × Nat) :=
  let ds := t.takeWhile Char.isDigit
  if ds.isEmpty then none
  else
    let r := t.drop ds.length
    match r with
    | '.' :: fr =>
      let fs := fr.takeWhile Char.isDigit
      if fs.isEmpty then some ((digitsToNat ds : ℚ), ds.length)
      else some ((digitsToNat ds : ℚ) + (digitsToNat fs : ℚ) / (10 : ℚ) ^ fs.length,
                 ds.length + 1 + fs.length)
    | _ => some ((digitsToNat ds : ℚ), ds.length)

/-- Greedy match of `\d+` at the head of the text. -/
def parseIntAt (t : Text) : Option (Nat × Nat) :=
  let ds := t.takeWhile Char.isDigit
  if ds.isEmpty then none else some (digitsToNat ds, ds.length)

/-- Ordered regex alternation over literal alternatives with backtracking:
try each alternative as a case-insensitive prefix and run the continuation
on the rest; on failure fall through to the next alternative. -/
def tryAlts {β : Type} (alts : List Text) (t : Text) (cont : Nat → Text → Option β) : Option β :=
  match alts with
  | [] => none
  | a :: rest =>
    match (if isPrefixCI a t then cont a.length (t.drop a.length) else none) with
    | some r => some r
    | none => tryAlts rest t cont

/-- Leftmost-match search: scan positions left to right, returning the
first position where the matcher succeeds (the semantics of `re.search`).
Fuel is the scan budget; callers pass the text length. -/
def searchMatch {γ : Type} (matchAt : Text → Option γ) : Nat → Text → Option γ
  | 0, _ => none
  | _ + 1, [] => none
  | fuel + 1, c :: rest =>
    match matchAt (c :: rest) with
    | some r => some r
    | none => searchMatch matchAt fuel rest

/-- Replacement engine for `re.sub`: scan left to right; where `matchAt`
yields a match length and replacement, emit the replacement and resume
after the match; elsewhere copy the character.  Matchers in this file
always consume at least one character. -/
def rewriteAll (matchAt : Text → Option (Nat × Text)) : Nat → Text → Text
  | 0, t => t
  | _ + 1, [] => []
  | fuel + 1, c :: rest =>
    match matchAt (c :: rest) with
    | some (len, repl) => repl ++ rewriteAll matchAt fuel (rest.drop (len - 1))
    | none => c :: rewriteAll matchAt fuel rest

/-- Match, at the head of the text, a pattern made of literal parts
separated by `\s*` gaps (covers patterns such as `\(\s*업소용\s*\)`).
Returns the number of characters consumed. -/
def matchSeqAt : List Text → Text → Option Nat
  | [], _ => some 0
  | p :: ps, t =>
    if isPrefixCI p t then
      match ps with
      | [] => some p.length
      | _ :: _ =>
        let t1 := t.drop p.length
        let w := countWs t1
        (matchSeqAt ps (t1.drop w)).map (fun l => p.length + w + l)
    else none

/-- Case-insensitive `re.sub` of a literal-with-`\s*`-gaps pattern. -/
def replaceSeq (parts : List Text) (repl : Text) (t : Text) : Text :=
  rewriteAll (fun s => (matchSeqAt parts s).map (fun l => (l, repl))) t.length t

/-- Case-insensitive `re.sub(re.escape(lit), repl, t)` for a literal. -/
def replaceLitCI (lit repl t : Text) : Text := replaceSeq [lit] repl t

/-- Leftmost match of a pattern returning the matched substring. -/
def searchMatchedStr (matchAt : Text → Option Nat) : Nat → Text → Option Text
  | 0, _ => none
  | _ + 1, [] => none
  | fuel + 1, c :: rest =>
    match matchAt (c :: rest) with
    | some len => some ((c :: rest).take len)
    | none => searchMatchedStr matchAt fuel rest

/-- Collapse every whitespace run to a single space:
`re.sub(r'\s+', ' ', t)`. -/
def collapseWsGo : Text → Bool → Text
  | [], _ => []
  | c :: rest, prevWs =>
    if isWsChar c then
      if prevWs then collapseWsGo rest true else ' ' :: collapseWsGo rest true
    else c :: collapseWsGo rest false

/-- Whitespace normalisation `re.sub(r'\s+', ' ', t).strip()` used
throughout the source. -/
def collapseWs (t : Text) : Text := stripText (collapseWsGo t false)

/-! ### `GarlicOrderParser._process_math_expressions`

Each unit family is one regex of the shape
`<num><unit> \s* [+x×] \s* <num><unit>`; the code takes the first
(leftmost) match, sums its two operands, and substitutes the formatted
sum for every non-overlapping match of the same pattern via `re.sub`. -/

/-- Operator class `[+x×]` under `re.IGNORECASE` (the kg/g families):
the flag makes `x` also match `X`. -/
def isOpCI (c : Char) : Bool := c == '+' || c == 'x' || c == 'X' || c == '×'

/-- Operator class `[+x×]` without flags (the count-unit families). -/
def isOpEx (c : Char) : Bool := c == '+' || c == 'x' || c == '×'

/-- Unit alternatives `(?:KG|kg|키로|키|k)` of the kilogram family, in
the source's alternation order. -/
def kgAlts : List Text := [['K', 'G'], ['k', 'g'], ['키', '로'], ['키'], ['k']]

/-- Unit alternatives `(?:G|g|그램)` of the gram family. -/
def gAlts : List Text := [['G'], ['g'], ['그', '램']]

/-- Match, at the head of the text, a decimal arithmetic expression
`(\d+(?:\.\d+)?)\s*U\s*[+x×]\s*(\d+(?:\.\d+)?)\s*U` where `U` is the
ordered alternation `alts` (case-insensitive).  Returns the two operand
values and the total matched length. -/
def matchDecExprAt (alts : List Text) (t : Text) : Option (ℚ × ℚ × Nat) :=
  match parseNumberAt t with
  | none => none
  | some (n1, l1) =>
    let t1 := t.drop l1
    let w1 := countWs t1
    tryAlts alts (t1.drop w1) (fun u1 t2 =>
      let w2 := countWs t2
      match t2.drop w2 with
      | [] => none
      | op :: t3 =>
        if isOpCI op then
          let w3 := countWs t3
          match parseNumberAt (t3.drop w3) with
          | none => none
          | some (n2, l2) =>
            let t4 := (t3.drop w3).drop l2
            let w4 := countWs t4
            tryAlts alts (t4.drop w4) (fun u2 _ =>
              some (n1, n2, l1 + w1 + u1 + w2 + 1 + w3 + l2 + w4 + u2))
        else none)

/-- Match, at the head of the text, a count-unit arithmetic expression
`(\d+)\s*u\s*[+x×]\s*(\d+)\s*u` for one literal unit character `u`
(these patterns are compiled without `re.IGNORECASE`). -/
def matchIntExprAt (u : Char) (t : Text) : Option (Nat × Nat × Nat) :=
  match parseIntAt t with
  | none => none
  | some (n1, l1) =>
    let t1 := t.drop l1
    let w1 := countWs t1
    match t1.drop w1 with
    | [] => none
    | c1 :: t2 =>
      if c1 == u then
        let w2 := countWs t2
        match t2.drop w2 with
        | [] => none
        | op :: t3 =>
          if isOpEx op then
            let w3 := countWs t3
            match parseIntAt (t3.drop w3) with
            | none => none
            | some (n2, l2) =>
              let t4 := (t3.drop w3).drop l2
              let w4 := countWs t4
              match t4.drop w4 with
              | [] => none
              | c2 :: _ =>
                if c2 == u then
                  some (n1, n2, l1 + w1 + 1 + w2 + 1 + w3 + l2 + w4 + 1)
                else none
          else none
      else none

/-- Format the summed weight as the source does: integral results print
as an `int`, fractional results as the float. -/
def fmtMathResult (q : ℚ) (unitTxt : Text) : Text :=
  (if q.den = 1 then intRepr q.num else ratRepr q) ++ unitTxt

/-- One decimal unit family of `_process_math_expressions`: if the
pattern has a (leftmost) match, sum its operands and substitute the
formatted sum for every match of the pattern (the `re.sub` call). -/
def processDecFamily (alts : List Text) (unitTxt : Text) (t : Text) : Text :=
  match searchMatch (matchDecExprAt alts) t.length t with
  | none => t
  | some (n1, n2, _) =>
    rewriteAll (fun s => (matchDecExprAt alts s).map (fun r => (r.2.2, fmtMathResult (n1 + n2) unitTxt)))
      t.length t

/-- One count-unit family of `_process_math_expressions`. -/
def processIntFamily (u : Char) (t : Text) : Text :=
  match searchMatch (matchIntExprAt u) t.length t with
  | none => t
  | some (n1, n2, _) =>
    rewriteAll (fun s => (matchIntExprAt u s).map (fun r => (r.2.2, natRepr (n1 + n2) ++ [u])))
      t.length t

/-- Source `GarlicOrderParser._process_math_expressions`: the seven unit
families in source order (kg, g, 팩, 개, 포, 봉, 통). -/
def process_math_expressions (t : Text) : Text :=
  let t1 := processDecFamily kgAlts ['K', 'G'] t
  let t2 := processDecFamily gAlts ['G'] t1
  let t3 := processIntFamily '팩' t2
  let t4 := processIntFamily '개' t3
  let t5 := processIntFamily '포' t4
  let t6 := processIntFamily '봉' t5
  processIntFamily '통' t6

/-! ### `GarlicOrderParser.clean_text` and its helper stages -/

/-- Bracket-content exception list `parsing_rules['bracket_exceptions']`. -/
def bracket_exceptions : List Text :=
  ["특".data, "대".data, "중".data, "소".data, "대 꼭지제거".data]

/-- Matcher for `\(([^)]+)\)` with the replacement function of
`_process_brackets`: exception contents are kept unwrapped between
spaces, all other bracket groups become a single space. -/
def matchBracketAt (t : Text) : Option (Nat × Text) :=
  match t with
  | '(' :: rest =>
    let content := rest.takeWhile (fun c => c != ')')
    if content.isEmpty then none
    else
      match rest.drop content.length with
      | ')' :: _ =>
        let stripped := stripText content
        if stripped ∈ bracket_exceptions then some (content.length + 2, ' ' :: stripped ++ [' '])
        else some (content.length + 2, [' '])
      | _ => none
  | _ => none

/-- Source `GarlicOrderParser._process_brackets`. -/
def process_brackets (t : Text) : Text :=
  collapseWs (rewriteAll matchBracketAt t.length t)

/-- Source `GarlicOrderParser._process_hyphen`: keep only the part before the
first hyphen, stripped. -/
def process_hyphen (t : Text) : Text :=
  if containsEx ['-'] t then stripText (t.takeWhile (fun c => c != '-')) else t

/-- Source `GarlicOrderParser._process_delimiters`: keep the suffix after the
last colon, then the prefix before the first slash. -/
def process_delimiters (t : Text) : Text :=
  let t1 := if containsEx [':'] t then stripText ((t.reverse.takeWhile (fun c => c != ':')).reverse) else t
  if containsEx ['/'] t1 then stripText (t1.takeWhile (fun c => c != '/')) else t1

/-- Fixed noise substrings `words_to_remove` of `clean_text`. -/
def words_to_remove : List Text :=
  ["[마늘귀신]".data, "경북".data, "의성".data, "국내산".data, "마늘귀신".data, "국산".data]

/-- Noise-word removal loop of `clean_text`. -/
def removeNoiseWords (t : Text) : Text :=
  words_to_remove.foldl (fun acc w => replaceLitCI w [] acc) t

/-- The three bulk-marker deletions of `clean_text` (`업소용`,
`\(업소용\)`, `\(\s*업소용\s*\)`), in source order. -/
def removeBulkMarks (t : Text) : Text :=
  let t1 := replaceLitCI "업소용".data [] t
  let t2 := replaceLitCI "(업소용)".data [] t1
  replaceSeq ["(".data, "업소용".data, ")".data] [] t2

/-- The four `garlic_stem_patterns` rewrites of `clean_text`, each
replaced by `마늘쫑`, in source order. -/
def garlicStemClean (t : Text) : Text :=
  let t1 := replaceSeq ["손질된".data, "마늘쫑".data] "마늘쫑".data t
  let t2 := replaceSeq ["(".data, "손질된".data, "마늘쫑".data, ")".data] "마늘쫑".data t1
  let t3 := replaceSeq ["손질마늘쫑".data] "마늘쫑".data t2
  replaceSeq ["(".data, "손질마늘쫑".data, ")".data] "마늘쫑".data t3

/-- Matcher for the weight token `\d+(?:\.\d+)?\s*(?:KG|kg|키로|G|g|그램)`
used by the `마늘쫑` deduplication, returning the matched length. -/
def matchWeightTokAt (t : Text) : Option Nat :=
  match parseNumberAt t with
  | none => none
  | some (_, l1) =>
    let t1 := t.drop l1
    let w := countWs t1
    tryAlts [['K', 'G'], ['k', 'g'], ['키', '로'], ['G'], ['g'], ['그', '램']]
      (t1.drop w) (fun u _ => some (l1 + w + u))

/-- The `마늘쫑` deduplication of `clean_text`: when the token occurs,
the whole text collapses to `마늘쫑` plus the first weight expression
found (or the token alone). -/
def collapseGarlicStem (t : Text) : Text :=
  if containsEx "마늘쫑".data (textLower t) then
    match searchMatchedStr matchWeightTokAt t.length t with
    | some w => "마늘쫑 ".data ++ w
    | none => "마늘쫑".data
  else t

/-- Matcher for `[,]+`, replaced by one space. -/
def matchCommasAt (t : Text) : Option (Nat × Text) :=
  let cs := t.takeWhile (fun c => c == ',')
  if cs.isEmpty then none else some (cs.length, [' '])

/-- Source `GarlicOrderParser.clean_text`: the full normalisation pipeline in
source order (strip, noise words, bulk marks, brackets, hyphen, stem
phrases, `마늘쫑` collapse, delimiters, arithmetic, commas, whitespace).
The `pd.isna` guard at the top only concerns non-string inputs, which
the embedding excludes by typing. -/
def clean_text (text : Text) : Text :=
  let t0 := stripText text
  let t1 := removeNoiseWords t0
  let t2 := removeBulkMarks t1
  let t3 := process_brackets t2
  let t4 := process_hyphen t3
  let t5 := garlicStemClean t4
  let t6 := collapseGarlicStem t5
  let t7 := process_delimiters t6
  let t8 := process_math_expressions t7
  let t9 := rewriteAll matchCommasAt t8.length t8
  collapseWs t9

/-! ### `GarlicOrderParser.extract_weight_info` -/

/-- Pattern 0, `(\d+(?:\.\d+)?)\s*키로\s*(?:그램)?`: value of a match
at the head of the text (the optional tail does not affect the value). -/
def matchKiroAt (t : Text) : Option ℚ :=
  match parseNumberAt t with
  | none => none
  | some (n, l) =>
    let t1 := t.drop l
    if isPrefixCI "키로".data (t1.drop (countWs t1)) then some n else none

/-- Pattern 1, `(\d+(?:\.\d+)?)\s*(KG|kg)`. -/
def matchKgUnitAt (t : Text) : Option ℚ :=
  match parseNumberAt t with
  | none => none
  | some (n, l) =>
    let t1 := t.drop l
    tryAlts [['K', 'G'], ['k', 'g']] (t1.drop (countWs t1)) (fun _ _ => some n)

/-- Pattern 2, `(\d+(?:\.\d+)?)\s*(G|g|그램)`. -/
def matchGramUnitAt (t : Text) : Option ℚ :=
  match parseNumberAt t with
  | none => none
  | some (n, l) =>
    let t1 := t.drop l
    tryAlts gAlts (t1.drop (countWs t1)) (fun _ _ => some n)

/-- Pattern 3, `(\d+(?:\.\d+)?)\s*(?:키|k)`. -/
def matchKiAt (t : Text) : Option ℚ :=
  match parseNumberAt t with
  | none => none
  | some (n, l) =>
    let t1 := t.drop l
    tryAlts [['키'], ['k']] (t1.drop (countWs t1)) (fun _ _ => some n)

/-- Source `GarlicOrderParser.extract_weight_info`: the four patterns are tried
in order, the first whose search succeeds wins; the gram family divides
by 1000 (both branches of the source's `if weight_num >= 1000` divide);
no match yields empty value and unit.  Returns
`(text, weight_value, unit)` as the source does, with `str(weight_num)`
modelled by `pyFloatStr`. -/
def extract_weight_info (text : Text) : Text × Text × Text :=
  match searchMatch matchKiroAt text.length text with
  | some n => (text, pyFloatStr n, "KG".data)
  | none =>
  match searchMatch matchKgUnitAt text.length text with
  | some n => (text, pyFloatStr n, "KG".data)
  | none =>
  match searchMatch matchGramUnitAt text.length text with
  | some n => (text, pyFloatStr (if n ≥ 1000 then n / 1000 else n / 1000), "KG".data)
  | none =>
  match searchMatch matchKiAt text.length text with
  | some n => (text, pyFloatStr n, "KG".data)
  | none => (text, [], [])

/-! ### `GarlicOrderParser.classify_product`, business rules, and
`parse_single_item` -/

/-- Ordered category keyword groups `category_priority`. -/
def category_priority : List (Text × List Text) :=
  [("마늘쫑".data, ["마늘쫑".data, "쫑".data, "마늘종".data, "마늘줄기".data]),
   ("다진마늘".data, ["다진마늘".data, "마늘다진".data, "다진".data, "으깬마늘".data, "갈은마늘".data]),
   ("깐마늘".data, ["깔마늘".data, "깐마늘".data, "마늘깐것".data, "벗긴마늘".data, "껍질벗긴마늘".data]),
   ("닭발".data, ["닭발".data])]

/-- Source `GarlicOrderParser.classify_product`: first keyword group with a
match wins, then the generic `마늘` fallbacks. -/
def classify_product (text : Text) : Text :=
  let tl := textLower text
  match category_priority.find? (fun p => p.2.any (fun k => containsEx k tl)) with
  | some p => p.1
  | none => if containsEx "마늘".data tl then "마늘기타".data else "기타".data

/-- Source `ParsedProduct` of the source: the per-row parse record.  The
`weight` field is the string the source stores (`str(float)` or empty). -/
structure ParsedProduct where
  original_text : Text
  product_name : Text
  weight : Text
  unit : Text
  is_bulk : Bool
  category : Text
deriving DecidableEq

/-- Source `parsing_rules['bulk_threshold']`. -/
def bulk_threshold : ℚ := 5

/-- First business rule: default the variety token `대서` for the two
garlic categories when neither `육쪽` nor `대서` occurs. -/
def rule_variety (p : ParsedProduct) : ParsedProduct :=
  if p.category = "깐마늘".data ∨ p.category = "다진마늘".data then
    let pl := textLower p.product_name
    if containsEx "육쪽".data pl = false then
      if containsEx "대서".data pl = false then
        { p with product_name := "대서 ".data ++ p.product_name }
      else p
    else p
  else p

/-- Second business rule: for `다진마늘`, space out a `꼭지포함` phrase
into the collision-resistant marker. -/
def rule_stem_marker (p : ParsedProduct) : ParsedProduct :=
  if p.category = "다진마늘".data ∧ containsEx "꼭지포함".data (textLower p.product_name) = true then
    { p with product_name := replaceLitCI "꼭지포함".data "* 꼭 지 포 함 *".data p.product_name }
  else p

/-- Third business rule: bulk tagging.  For the two garlic categories
with a nonempty weight string, parse the weight; at or above the
threshold, and with no bulk marker already present, prefix the spaced
marker and set the flag.  An unparseable weight is swallowed
(`except (ValueError, TypeError): pass`). -/
def rule_bulk_tag (p : ParsedProduct) : ParsedProduct :=
  if (p.category = "깐마늘".data ∨ p.category = "다진마늘".data) ∧ p.weight ≠ [] then
    match pyFloat p.weight with
    | none => p
    | some w =>
      if w ≥ bulk_threshold then
        if containsEx "업소용".data p.product_name = false ∧
           containsEx "** 업 소 용 **".data p.product_name = false then
          { p with product_name := "** 업 소 용 ** ".data ++ p.product_name, is_bulk := true }
        else p
      else p
  else p

/-- Final whitespace cleanup of the product name. -/
def rule_name_cleanup (p : ParsedProduct) : ParsedProduct :=
  { p with product_name := collapseWs p.product_name }

/-- Source `GarlicOrderParser.apply_business_rules`: the four rules in source
order. -/
def apply_business_rules (p : ParsedProduct) : ParsedProduct :=
  rule_name_cleanup (rule_bulk_tag (rule_stem_marker (rule_variety p)))

/-- Body of the `try` block of `parse_single_item`: clean, extract,
classify, then apply the business rules. -/
def parse_single_item_ok (text : Text) : ParsedProduct :=
  let cleaned := clean_text text
  let e := extract_weight_info cleaned
  apply_business_rules
    { original_text := text
      product_name := cleaned
      weight := e.2.1
      unit := e.2.2
      is_bulk := false
      category := classify_product cleaned }

/-- The concrete pipeline, which is total: every stage is a total
function, so it always returns `Except.ok`. -/
def parse_single_item_stages (text : Text) : Except Text ParsedProduct :=
  Except.ok (parse_single_item_ok text)

/-- Source `GarlicOrderParser.parse_single_item`: the `try/except` is embedded
by abstracting the fallible stage pipeline as an `Except`-valued
function (Python exceptions become `Except.error`).  On an error the
row falls back to the `오류` record, keeping the original text, and a
row-level warning is recorded. -/
def parse_single_item (stages : Text → Except Text ParsedProduct) (text : Text) :
    ParsedProduct × List Text :=
  match stages text with
  | Except.ok p => (p, [])
  | Except.error e =>
    ({ original_text := text
       product_name := text
       weight := []
       unit := []
       is_bulk := false
       category := "오류".data }, ["파싱 실패: ".data ++ e])

/-! ### `PackingListGenerator`: keying and aggregation

The generator's `aggregation_data` defaultdict is embedded as an
insertion-ordered association list, matching Python dict iteration
order.  `add_order_data`'s per-row loop body becomes `add_order_row`;
the delivery-statistics branch (`delivery_data`) is independent of the
product aggregation and of every claim, and is not modelled. -/

/-- Source `PackingListGenerator.is_bulk_product`. -/
def is_bulk_product (product_name : Text) (is_bulk_flag : Bool) : Bool :=
  if is_bulk_flag then true
  else containsEx "업소용".data product_name || containsEx "** 업 소 용 **".data product_name

/-- Weight-pattern matcher `i` of `_remove_weight_from_name`, returning
the matched length at the head of the text. -/
def matchWeightPatternAt (i : Nat) (t : Text) : Option Nat :=
  match parseNumberAt t with
  | none => none
  | some (_, l) =>
    let t1 := t.drop l
    let w := countWs t1
    let t2 := t1.drop w
    match i with
    | 0 =>
      if isPrefixCI "키로".data t2 then
        let t3 := t2.drop 2
        let w2 := countWs t3
        if isPrefixCI "그램".data (t3.drop w2) then some (l + w + 2 + w2 + 2)
        else some (l + w + 2 + w2)
      else none
    | 1 => tryAlts [['K', 'G'], ['k', 'g']] t2 (fun u _ => some (l + w + u))
    | 2 => tryAlts gAlts t2 (fun u _ => some (l + w + u))
    | 3 => tryAlts [['키'], ['k']] t2 (fun u _ => some (l + w + u))
    | _ => tryAlts [['킬', '로'], ['k', 'i', 'l', 'o']] t2 (fun u _ => some (l + w + u))

/-- Characters trimmed by `^[,.\-\s]+|[,.\-\s]+$`. -/
def isTrimChar (c : Char) : Bool :=
  c == ',' || c == '.' || c == '-' || isWsChar c

/-- Source `PackingListGenerator._remove_weight_from_name`: delete every match
of the five weight patterns in order, collapse whitespace, then trim
leading and trailing punctuation. -/
def remove_weight_from_name (product_name : Text) : Text :=
  let c0 := rewriteAll (fun s => (matchWeightPatternAt 0 s).map (fun l => (l, []))) product_name.length product_name
  let c1 := rewriteAll (fun s => (matchWeightPatternAt 1 s).map (fun l => (l, []))) c0.length c0
  let c2 := rewriteAll (fun s => (matchWeightPatternAt 2 s).map (fun l => (l, []))) c1.length c1
  let c3 := rewriteAll (fun s => (matchWeightPatternAt 3 s).map (fun l => (l, []))) c2.length c2
  let c4 := rewriteAll (fun s => (matchWeightPatternAt 4 s).map (fun l => (l, []))) c3.length c3
  let c5 := collapseWs c4
  stripText ((c5.dropWhile isTrimChar).reverse.dropWhile isTrimChar).reverse

/-- Source `PackingListGenerator.generate_aggregation_key`: bulk products and
the stalk category key by the verbatim product name; other categories
key by the weight-stripped name. -/
def generate_aggregation_key (product_name _weight category : Text) (is_bulk : Bool) : Text :=
  if is_bulk_product product_name is_bulk = true ∨ category = "마늘쫑".data then
    category ++ '_' :: product_name
  else if category = "닭발".data then
    category ++ '_' :: remove_weight_from_name product_name
  else
    category ++ '_' :: remove_weight_from_name product_name

/-- One aggregation entry of `aggregation_data` (the defaultdict value). -/
structure AggData where
  quantity : ℚ
  total_weight : ℚ
  order_files : List Text
  unit_weight : ℚ
  unit : Text
  category : Text
  is_bulk : Bool
deriving DecidableEq

/-- The defaultdict default value. -/
def defaultAggData : AggData :=
  { quantity := 0, total_weight := 0, order_files := [], unit_weight := 0,
    unit := "KG".data, category := [], is_bulk := false }

/-- Insertion-ordered association list lookup (Python dict access). -/
def aggLookup (s : List (Text × AggData)) (k : Text) : Option AggData :=
  match s.find? (fun e => e.1 == k) with
  | some e => some e.2
  | none => none

/-- Insertion-ordered association list store (Python dict assignment). -/
def aggStore : List (Text × AggData) → Text → AggData → List (Text × AggData)
  | [], k, v => [(k, v)]
  | (k0, v0) :: rest, k, v =>
    if k0 = k then (k0, v) :: rest else (k0, v0) :: aggStore rest k v

/-- Session state of `PackingListGenerator` relevant to aggregation. -/
structure AggState where
  aggregation_data : List (Text × AggData)
  total_orders_processed : Nat
deriving DecidableEq

/-- The freshly constructed generator. -/
def emptyAggState : AggState := { aggregation_data := [], total_orders_processed := 0 }

/-- One parsed row as consumed by `add_order_data`: the parsed columns
plus the (already `int()`-converted) quantity. -/
structure OrderRow where
  product_name : Text
  weight : Text
  category : Text
  is_bulk : Bool
  quantity : Int
deriving DecidableEq

/-- Loop body of `PackingListGenerator.add_order_data` for one row.
Rows with nonpositive quantity or an empty/`nan` product name are
skipped.  The defaultdict entry is created and its category, bulk flag
and source files are written before the weight is parsed, so an
unparseable weight (Python `float` raising, caught by the per-row
`except`) leaves exactly those mutations behind. -/
def add_order_row (state : AggState) (row : OrderRow) (source_file : Text) : AggState :=
  if row.quantity ≤ 0 ∨ row.product_name = [] ∨ row.product_name = "nan".data then state
  else
    let s1 : AggState := { state with total_orders_processed := state.total_orders_processed + 1 }
    let key := generate_aggregation_key row.product_name row.weight row.category row.is_bulk
    let a0 := (aggLookup s1.aggregation_data key).getD defaultAggData
    let a1 : AggData :=
      { a0 with
        category := row.category
        is_bulk := is_bulk_product row.product_name row.is_bulk
        order_files := if source_file ∈ a0.order_files then a0.order_files else a0.order_files ++ [source_file] }
    if row.weight ≠ [] ∧ row.weight ≠ "nan".data then
      match pyFloat row.weight with
      | none => { s1 with aggregation_data := aggStore s1.aggregation_data key a1 }
      | some uw =>
        let a2 : AggData := { a1 with unit_weight := uw }
        let a3 : AggData :=
          if is_bulk_product row.product_name row.is_bulk = true ∨ row.category = "마늘쫑".data then
            { a2 with
              quantity := a2.quantity + (row.quantity : ℚ)
              total_weight := a2.total_weight + uw * (row.quantity : ℚ) }
          else if row.category = "닭발".data then
            { a2 with quantity := a2.quantity + (row.quantity : ℚ), total_weight := 0 }
          else
            { a2 with
              quantity := a2.quantity + uw * (row.quantity : ℚ) / 1
              total_weight := a2.total_weight + uw * (row.quantity : ℚ) }
        { s1 with aggregation_data := aggStore s1.aggregation_data key a3 }
    else
      let a2 : AggData :=
        if row.category = "닭발".data then
          { a1 with quantity := a1.quantity + (row.quantity : ℚ), total_weight := 0 }
        else
          { a1 with quantity := a1.quantity + (row.quantity : ℚ) }
      { s1 with aggregation_data := aggStore s1.aggregation_data key a2 }

/-- Source `PackingItem` of the source. -/
structure PackingItem where
  product_name : Text
  category : Text
  unit_weight : ℚ
  unit : Text
  quantity : ℚ
  total_weight : ℚ
  is_bulk : Bool
  order_files : List Text
deriving DecidableEq

/-- Split an aggregation key at its first underscore:
`agg_key.split('_', 1)`. -/
def splitKeyOnce (k : Text) : Text × Text :=
  let c := k.takeWhile (fun ch => ch != '_')
  match k.drop c.length with
  | '_' :: rest => (c, rest)
  | _ => (c, [])

/-- Build the `PackingItem` of one aggregation entry (the loop body of
`generate_packing_list`).  Bulk and stalk entries display an
integer-truncated quantity. -/
def packingItemOf (key : Text) (a : AggData) : PackingItem :=
  let parts := splitKeyOnce key
  let displayQuantity : ℚ :=
    if a.is_bulk = true ∨ parts.1 = "마늘쫑".data then ((pyInt a.quantity : Int) : ℚ) else a.quantity
  { product_name := parts.2
    category := parts.1
    unit_weight := a.unit_weight
    unit := a.unit
    quantity := displayQuantity
    total_weight := a.total_weight
    is_bulk := a.is_bulk
    order_files := a.order_files }

/-- Sort key order of `generate_packing_list`: by category, then by
product name (code-point lexicographic, as Python compares strings). -/
def textLeB : Text → Text → Bool
  | [], _ => true
  | _ :: _, [] => false
  | a :: as_, b :: bs => if a = b then textLeB as_ bs else decide (a < b)

/-- Comparison used to sort packing items by `(category, product_name)`. -/
def packingItemLe (x y : PackingItem) : Bool :=
  if x.category = y.category then textLeB x.product_name y.product_name
  else textLeB x.category y.category

/-- Source `PackingListGenerator.generate_packing_list` (item list part):
entries with positive quantity become items, sorted by category and
product name. -/
def generate_packing_list (state : AggState) : List PackingItem :=
  let items := state.aggregation_data.filterMap
    (fun e => if e.2.quantity > 0 then some (packingItemOf e.1 e.2) else none)
  items.mergeSort packingItemLe

/-! ### Row-level detectors and sorting

These functions consume a DataFrame.  The embedding works at the level
of resolved columns: a row carries the cell values of the columns the
source locates by name (`_parsed`, quantity, `_weight`, and the three
delivery-identity columns), plus an opaque payload standing for all the
remaining columns, which travel with the row. -/

/-- A raw spreadsheet cell as the detectors see it. -/
inductive PCell where
  | str (s : Text)
  | num (q : ℚ)
  | na
deriving DecidableEq

/-- Source `pd.to_numeric(x, errors='coerce')` on one cell: numbers pass
through, parseable strings convert, everything else becomes NaN
(`none`). -/
def to_numeric : PCell → Option ℚ
  | PCell.str s => pyFloat s
  | PCell.num q => some q
  | PCell.na => none

/-- One row as consumed by `find_heavy_order_rows`: the quantity cell
and the `_weight` cell. -/
structure HeavyRow where
  quantity : PCell
  weight : PCell
deriving DecidableEq

/-- Index-accumulating loop of `find_heavy_order_rows`. -/
def heavyRowsGo : Nat → List HeavyRow → List Nat
  | _, [] => []
  | i, r :: rest =>
    match to_numeric r.quantity, to_numeric r.weight with
    | some q, some w =>
      if q * w > 10 then i :: heavyRowsGo (i + 1) rest else heavyRowsGo (i + 1) rest
    | _, _ => heavyRowsGo (i + 1) rest

/-- Source `find_heavy_order_rows`: indices of rows whose numeric quantity
times numeric unit weight strictly exceeds 10 kg; rows where either
coercion yields NaN are skipped.  (The embedding assumes the quantity
and `_weight` columns resolved; otherwise the source returns `[]`.) -/
def find_heavy_order_rows (rows : List HeavyRow) : List Nat :=
  heavyRowsGo 0 rows

/-- One row as consumed by `find_combined_delivery_rows`: the raw cells
of the three delivery-identity columns (`none` models NaN). -/
structure IdRow where
  recipient : Option Text
  address : Option Text
  phone : Option Text
deriving DecidableEq

/-- Source `str(cell) if pd.notna(cell) else ""` of the detector. -/
def cellOrEmpty (o : Option Text) : Text := o.getD []

/-- The validity filter and key of `find_combined_delivery_rows`: all
three identity fields must be nonempty and differ from `"nan"`. -/
def validDeliveryKey (row : IdRow) : Option Text :=
  let r := cellOrEmpty row.recipient
  let a := cellOrEmpty row.address
  let p := cellOrEmpty row.phone
  if r ≠ [] ∧ a ≠ [] ∧ p ≠ [] ∧ r ≠ "nan".data ∧ a ≠ "nan".data ∧ p ≠ "nan".data then
    some (r ++ '_' :: a ++ '_' :: p)
  else none

/-- Append an index to its key's group, preserving dict insertion order. -/
def addToGroups : List (Text × List Nat) → Text → Nat → List (Text × List Nat)
  | [], k, i => [(k, [i])]
  | (k0, g) :: rest, k, i =>
    if k0 = k then (k0, g ++ [i]) :: rest else (k0, g) :: addToGroups rest k i

/-- The grouping loop of `find_combined_delivery_rows`. -/
def buildDeliveryGroups : List (Text × List Nat) → Nat → List IdRow → List (Text × List Nat)
  | gs, _, [] => gs
  | gs, i, row :: rest =>
    match validDeliveryKey row with
    | some k => buildDeliveryGroups (addToGroups gs k i) (i + 1) rest
    | none => buildDeliveryGroups gs (i + 1) rest

/-- Source `find_combined_delivery_rows`: all row indices lying in an identity
group of size at least two.  (The embedding assumes the three identity
columns resolved; otherwise the source returns `[]`.) -/
def find_combined_delivery_rows (rows : List IdRow) : List Nat :=
  ((buildDeliveryGroups [] 0 rows).filter (fun g => g.2.length > 1)).foldr
    (fun g acc => g.2 ++ acc) []

/-- One row as consumed by the sorting functions: the `_parsed` cell,
the quantity cell, the three raw identity cells, and the untouched rest
of the row. -/
structure SortRow (α : Type) where
  parsed : Text
  quantityCell : PCell
  recipient : Option Text
  address : Option Text
  phone : Option Text
  payload : α

/-- Source `df[col].astype(str)` on one identity cell: NaN prints as `"nan"`. -/
def pdAstype (o : Option Text) : Text := o.getD "nan".data

/-- The `_temp_delivery_key` column: plain `_`-joined concatenation of
the three identity cells, with no validity filtering. -/
def temp_delivery_key {α : Type} (r : SortRow α) : Text :=
  pdAstype r.recipient ++ '_' :: pdAstype r.address ++ '_' :: pdAstype r.phone

/-- The `_temp_is_combined` column: the row's delivery key occurs more
than once in the batch (`value_counts`-based). -/
def temp_is_combined {α : Type} (rows : List (SortRow α)) (r : SortRow α) : Bool :=
  decide (rows.countP (fun r2 => temp_delivery_key r2 == temp_delivery_key r) > 1)

/-- The `_temp_quantity_sort` column:
`pd.to_numeric(..., errors='coerce').fillna(0)`. -/
def temp_quantity_sort {α : Type} (r : SortRow α) : ℚ :=
  (to_numeric r.quantityCell).getD 0

/-- Two-key sort order (no combined deliveries): parsed product name
ascending, then numeric quantity ascending. -/
def rowLe2 {α : Type} (a b : SortRow α) : Bool :=
  if a.parsed = b.parsed then decide (temp_quantity_sort a ≤ temp_quantity_sort b)
  else textLeB a.parsed b.parsed

/-- Three-key sort order: rows flagged by `f` first (the descending
`_temp_is_combined` key), then the two-key order. -/
def rowLe3 {α : Type} (f : SortRow α → Bool) (a b : SortRow α) : Bool :=
  if f a = f b then rowLe2 a b else f a

/-- Source `apply_sorting_to_parsed_file` (and its `_silent` variant, whose
sorting logic is identical): the combined-first key participates only
when the three identity columns resolved (`hasIdCols`) and at least one
combined group exists; all row data travels with the sort.  Pandas
`sort_values` is modelled by `mergeSort` over whole rows. -/
def apply_sorting_to_parsed_file {α : Type} (hasIdCols : Bool) (rows : List (SortRow α)) :
    List (SortRow α) :=
  let hasCombined := hasIdCols && rows.any (fun r => temp_is_combined rows r)
  if hasCombined then rows.mergeSort (rowLe3 (temp_is_combined rows))
  else rows.mergeSort rowLe2

/-! ### General lemmas about the embedding -/

theorem rewriteAll_cons (M : Text → Option (Nat × Text)) (fuel : Nat) (c : Char) (rest : Text) :
    rewriteAll M (fuel + 1) (c :: rest) =
      match M (c :: rest) with
      | some (len, repl) => repl ++ rewriteAll M fuel (rest.drop (len - 1))
      | none => c :: rewriteAll M fuel rest := rfl

theorem searchMatch_cons {γ : Type} (m : Text → Option γ) (fuel : Nat) (c : Char) (rest : Text) :
    searchMatch m (fuel + 1) (c :: rest) =
      match m (c :: rest) with
      | some r => some r
      | none => searchMatch m fuel rest := rfl

theorem matchDecExprAt_nondigit (alts : List Text) {c : Char} (rest : Text)
    (h : c.isDigit = false) : matchDecExprAt alts (c :: rest) = none := by
  simp [matchDecExprAt, parseNumberAt, List.takeWhile_cons, h]

theorem matchIntExprAt_nondigit (u : Char) {c : Char} (rest : Text)
    (h : c.isDigit = false) : matchIntExprAt u (c :: rest) = none := by
  simp [matchIntExprAt, parseIntAt, List.takeWhile_cons, h]

theorem rewriteAll_append_of_nomatch (M : Text → Option (Nat × Text))
    (hm : ∀ c rest, c.isDigit = false → M (c :: rest) = none) :
    ∀ (mid : Text), (∀ c ∈ mid, c.isDigit = false) →
      ∀ (fuel : Nat) (rest : Text),
        rewriteAll M (mid.length + fuel) (mid ++ rest) = mid ++ rewriteAll M fuel rest := by
  intro mid
  induction mid with
  | nil => intro _ fuel rest; simp
  | cons c mid ih =>
    intro hmid fuel rest
    have hfu : (c :: mid).length + fuel = (mid.length + fuel) + 1 := by
      simp only [List.length_cons]; omega
    rw [hfu, List.cons_append, rewriteAll_cons, hm c _ (hmid c (by simp))]
    show c :: rewriteAll M (mid.length + fuel) (mid ++ rest) = _
    rw [ih (fun d hd => hmid d (by simp [hd])) fuel rest, List.cons_append]

theorem searchMatch_none_of_all {γ : Type} (m : Text → Option γ) :
    ∀ (fuel : Nat) (t : Text), (∀ s, s <:+ t → m s = none) → searchMatch m fuel t = none := by
  intro fuel
  induction fuel with
  | zero => intro t _; rfl
  | succ fuel ih =>
    intro t h
    cases t with
    | nil => rfl
    | cons c rest =>
      rw [searchMatch_cons, h (c :: rest) (List.suffix_refl _)]
      show searchMatch m fuel rest = none
      exact ih rest (fun s hs => h s (hs.trans (List.suffix_cons c rest)))

theorem all_suffix_nomatch_append {γ : Type} (m : Text → Option γ)
    (hm : ∀ c rest, c.isDigit = false → m (c :: rest) = none) (tail : Text)
    (hend : ∀ s, s <:+ tail → m s = none) :
    ∀ mid, (∀ c ∈ mid, c.isDigit = false) →
      ∀ s, s <:+ mid ++ tail → m s = none := by
  intro mid
  induction mid with
  | nil => intro _ s hs; exact hend s (by simpa using hs)
  | cons c mid ih =>
    intro hmid s hs
    rw [List.cons_append] at hs
    rcases List.suffix_cons_iff.mp hs with h | hs
    · rw [h]; exact hm c _ (hmid c (by simp))
    · exact ih (fun d hd => hmid d (by simp [hd])) s hs

theorem suffix_nomatch_2KG {γ : Type} (m : Text → Option γ)
    (hm : ∀ c rest, c.isDigit = false → m (c :: rest) = none)
    (hnil : m [] = none)
    (h2K : ∀ rest, m ('2' :: 'K' :: rest) = none) :
    ∀ mid, (∀ c ∈ mid, c.isDigit = false) →
      ∀ s, s <:+ "2KG".data ++ (mid ++ "2KG".data) → m s = none := by
  intro mid hmid
  have hB : ∀ s, s <:+ "2KG".data → m s = none := by
    intro s hs
    rcases List.suffix_cons_iff.mp hs with h | hs
    · rw [h]; exact h2K ['G']
    rcases List.suffix_cons_iff.mp hs with h | hs
    · rw [h]; exact hm 'K' _ (by decide)
    rcases List.suffix_cons_iff.mp hs with h | hs
    · rw [h]; exact hm 'G' _ (by decide)
    · rw [List.suffix_nil.mp hs]; exact hnil
  have hMB : ∀ s, s <:+ mid ++ "2KG".data → m s = none :=
    all_suffix_nomatch_append m hm "2KG".data hB mid hmid
  intro s hs
  have hshape : "2KG".data ++ (mid ++ "2KG".data) =
      '2' :: 'K' :: 'G' :: (mid ++ "2KG".data) := rfl
  rw [hshape] at hs
  rcases List.suffix_cons_iff.mp hs with h | hs
  · rw [h]; exact h2K _
  rcases List.suffix_cons_iff.mp hs with h | hs
  · rw [h]; exact hm 'K' _ (by decide)
  rcases List.suffix_cons_iff.mp hs with h | hs
  · rw [h]; exact hm 'G' _ (by decide)
  · exact hMB s hs

/-! ### Claims C1 and C3: the text normaliser -/

/-- Claim C1, counterexample: `clean_text` is not idempotent.  On
`"1kg+1kg+1kg"` one pass yields `"2KG+1kg"` (the arithmetic collapse
rewrites only the leftmost binary kg-expression), and a second pass
collapses further to `"3KG"`. -/
theorem c1_counterexample :
    clean_text (clean_text "1kg+1kg+1kg".data) ≠ clean_text "1kg+1kg+1kg".data :=
  of_decide_eq_false (by with_unfolding_all rfl)

/-- Claim C1, amended: `clean_text` is idempotent at every fixed point
of a single pass, but not for every input: a pass over a chained
arithmetic expression creates a new binary expression that only the
next pass collapses (`"1kg+1kg+1kg"` → `"2KG+1kg"` → `"3KG"`, which a
third pass leaves unchanged). -/
theorem c1_amended :
    (∀ t : Text, clean_text t = t → clean_text (clean_text t) = clean_text t) ∧
    clean_text (clean_text "1kg+1kg+1kg".data) ≠ clean_text "1kg+1kg+1kg".data ∧
    clean_text "1kg+1kg+1kg".data = "2KG+1kg".data ∧
    clean_text (clean_text (clean_text "1kg+1kg+1kg".data)) =
      clean_text (clean_text "1kg+1kg+1kg".data) := by
  refine ⟨fun t h => by rw [h]; exact h, of_decide_eq_false (by with_unfolding_all rfl),
    of_decide_eq_true (by with_unfolding_all rfl), of_decide_eq_true (by with_unfolding_all rfl)⟩

/-- Claim C1, witness: the fixed-point idempotence clause applied at
the concrete fixed point `"3KG"`. -/
theorem c1_witness :
    clean_text (clean_text "3KG".data) = clean_text "3KG".data :=
  c1_amended.1 "3KG".data (of_decide_eq_true (by with_unfolding_all rfl))

/-- Claim C3, counterexample: one pass of the arithmetic collapse does
not leave a second same-family expression untouched.  In
`"1kg+1kg 마늘 2kg+3kg"` the first match `1kg+1kg` determines the sum
`2KG`, and `re.sub` then replaces the second expression `2kg+3kg` with
that same `2KG` as well. -/
theorem c3_counterexample :
    process_math_expressions "1kg+1kg 마늘 2kg+3kg".data = "2KG 마늘 2KG".data ∧
    containsEx "2kg+3kg".data (process_math_expressions "1kg+1kg 마늘 2kg+3kg".data) = false :=
  of_decide_eq_true (by with_unfolding_all rfl)

/-- The substitution function of the kg family once the first match has
summed to `2` (only used to phrase the C3 rewrite steps). -/
def kgSubstMatcher : Text → Option (Nat × Text) :=
  fun s => (matchDecExprAt kgAlts s).map (fun r => (r.2.2, fmtMathResult (1 + 1) ['K', 'G']))

/-- Claim C3, amended: per family, the first match determines the sum,
and that sum is substituted for every match of the family's pattern in
the text — so a second expression of the same family is overwritten by
the first expression's sum, not left untouched.  Shown for the kg
family around an arbitrary digit-free middle, together with the spec's
arithmetic-collapse example. -/
theorem c3_amended :
    (∀ mid : Text, (∀ c ∈ mid, c.isDigit = false) →
      process_math_expressions ("1kg+1kg".data ++ mid ++ "2kg+3kg".data) =
        "2KG".data ++ mid ++ "2KG".data) ∧
    process_math_expressions "1kg + 1kg 다진마늘".data = "2KG 다진마늘".data := by
  constructor
  · intro mid hmid
    rw [List.append_assoc, List.append_assoc]
    have hkg : processDecFamily kgAlts ['K', 'G'] ("1kg+1kg".data ++ (mid ++ "2kg+3kg".data)) =
        "2KG".data ++ (mid ++ "2KG".data) := by
      have hsearch : searchMatch (matchDecExprAt kgAlts)
          (("1kg+1kg".data ++ (mid ++ "2kg+3kg".data)).length)
          ("1kg+1kg".data ++ (mid ++ "2kg+3kg".data)) = some (1, 1, 7) := by
        with_unfolding_all rfl
      unfold processDecFamily
      rw [hsearch]
      show rewriteAll kgSubstMatcher
          (("1kg+1kg".data ++ (mid ++ "2kg+3kg".data)).length)
          ("1kg+1kg".data ++ (mid ++ "2kg+3kg".data)) = "2KG".data ++ (mid ++ "2KG".data)
      have hMnd : ∀ c rest, c.isDigit = false → kgSubstMatcher (c :: rest) = none := by
        intro c rest h
        simp [kgSubstMatcher, matchDecExprAt_nondigit kgAlts rest h]
      have hlen : ("1kg+1kg".data ++ (mid ++ "2kg+3kg".data)).length =
          ((mid ++ "2kg+3kg".data).length + 6) + 1 := by
        simp [List.length_append]
      rw [hlen]
      have hcons : "1kg+1kg".data ++ (mid ++ "2kg+3kg".data) =
          '1' :: ("kg+1kg".data ++ (mid ++ "2kg+3kg".data)) := rfl
      rw [hcons, rewriteAll_cons]
      have hM1 : kgSubstMatcher ('1' :: ("kg+1kg".data ++ (mid ++ "2kg+3kg".data))) =
          some (7, "2KG".data) := by
        with_unfolding_all rfl
      rw [hM1]
      show "2KG".data ++ rewriteAll kgSubstMatcher ((mid ++ "2kg+3kg".data).length + 6)
          (("kg+1kg".data ++ (mid ++ "2kg+3kg".data)).drop (7 - 1)) = _
      have hdrop : ("kg+1kg".data ++ (mid ++ "2kg+3kg".data)).drop (7 - 1) =
          mid ++ "2kg+3kg".data := rfl
      rw [hdrop]
      have hlen2 : (mid ++ "2kg+3kg".data).length + 6 = mid.length + 13 := by
        simp [List.length_append]
      rw [hlen2, rewriteAll_append_of_nomatch kgSubstMatcher hMnd mid hmid 13 "2kg+3kg".data]
      have hfin : rewriteAll kgSubstMatcher 13 "2kg+3kg".data = "2KG".data := by
        with_unfolding_all rfl
      rw [hfin]
    have hg : processDecFamily gAlts ['G'] ("2KG".data ++ (mid ++ "2KG".data)) =
        "2KG".data ++ (mid ++ "2KG".data) := by
      unfold processDecFamily
      rw [searchMatch_none_of_all (matchDecExprAt gAlts) _ _
        (suffix_nomatch_2KG _ (fun _ rest h => matchDecExprAt_nondigit gAlts rest h) rfl
          (fun _ => rfl) mid hmid)]
    have hint : ∀ u : Char, (∀ rest, matchIntExprAt u ('2' :: 'K' :: rest) = none) →
        processIntFamily u ("2KG".data ++ (mid ++ "2KG".data)) =
          "2KG".data ++ (mid ++ "2KG".data) := by
      intro u h2K
      unfold processIntFamily
      rw [searchMatch_none_of_all (matchIntExprAt u) _ _
        (suffix_nomatch_2KG _ (fun _ rest h => matchIntExprAt_nondigit u rest h) rfl
          h2K mid hmid)]
    simp only [process_math_expressions]
    rw [hkg, hg, hint '팩' (fun _ => rfl), hint '개' (fun _ => rfl), hint '포' (fun _ => rfl),
      hint '봉' (fun _ => rfl), hint '통' (fun _ => rfl)]
  · exact of_decide_eq_true (by with_unfolding_all rfl)

/-- Claim C3, witness: the amended rewrite instantiated with the
digit-free middle `" 마늘탕 "`. -/
theorem c3_witness :
    process_math_expressions ("1kg+1kg".data ++ " 마늘탕 ".data ++ "2kg+3kg".data) =
      "2KG".data ++ " 마늘탕 ".data ++ "2KG".data :=
  c3_amended.1 " 마늘탕 ".data (by decide)

/-! ### Claim C4: weight extraction -/

/-- Claim C4: `extract_weight_info` tries the 키로, KG/kg, G/g/그램 and
키/k patterns in that order with first match winning; every matched
weight comes back with unit `KG`, the gram family divided by 1000
(unconditionally: both branches of the source's `>= 1000` test divide);
`"500g"` yields `0.5 KG`, `"2키로"` yields `2.0 KG`; and with no match
the result is an empty value and unit, not an error. -/
theorem c4_extract :
    (∀ t : Text,
      ((extract_weight_info t).2.2 = "KG".data ∨ (extract_weight_info t).2.2 = []) ∧
      (∀ n : ℚ, searchMatch matchKiroAt t.length t = some n →
        extract_weight_info t = (t, pyFloatStr n, "KG".data)) ∧
      (∀ n : ℚ, searchMatch matchKiroAt t.length t = none →
        searchMatch matchKgUnitAt t.length t = some n →
        extract_weight_info t = (t, pyFloatStr n, "KG".data)) ∧
      (∀ n : ℚ, searchMatch matchKiroAt t.length t = none →
        searchMatch matchKgUnitAt t.length t = none →
        searchMatch matchGramUnitAt t.length t = some n →
        extract_weight_info t = (t, pyFloatStr (n / 1000), "KG".data)) ∧
      (∀ n : ℚ, searchMatch matchKiroAt t.length t = none →
        searchMatch matchKgUnitAt t.length t = none →
        searchMatch matchGramUnitAt t.length t = none →
        searchMatch matchKiAt t.length t = some n →
        extract_weight_info t = (t, pyFloatStr n, "KG".data)) ∧
      (searchMatch matchKiroAt t.length t = none →
        searchMatch matchKgUnitAt t.length t = none →
        searchMatch matchGramUnitAt t.length t = none →
        searchMatch matchKiAt t.length t = none →
        extract_weight_info t = (t, [], []))) ∧
    extract_weight_info "500g".data = ("500g".data, "0.5".data, "KG".data) ∧
    extract_weight_info "2키로".data = ("2키로".data, "2.0".data, "KG".data) := by
  refine ⟨fun t => ?_, of_decide_eq_true (by with_unfolding_all rfl),
    of_decide_eq_true (by with_unfolding_all rfl)⟩
  cases h0 : searchMatch matchKiroAt t.length t with
  | some n => simp [extract_weight_info, h0]
  | none =>
    cases h1 : searchMatch matchKgUnitAt t.length t with
    | some n => simp [extract_weight_info, h0, h1]
    | none =>
      cases h2 : searchMatch matchGramUnitAt t.length t with
      | some n => simp [extract_weight_info, h0, h1, h2]
      | none =>
        cases h3 : searchMatch matchKiAt t.length t with
        | some n => simp [extract_weight_info, h0, h1, h2, h3]
        | none => simp [extract_weight_info, h0, h1, h2, h3]

/-- Claim C4, witness: the no-match clause applied at `"abc"`, and the
gram clause applied at `"500g"`. -/
theorem c4_witness :
    extract_weight_info "abc".data = ("abc".data, [], []) ∧
    extract_weight_info "500g".data = ("500g".data, pyFloatStr ((500 : ℚ) / 1000), "KG".data) := by
  constructor
  · exact (c4_extract.1 "abc".data).2.2.2.2.2 (by with_unfolding_all rfl)
      (by with_unfolding_all rfl) (by with_unfolding_all rfl) (by with_unfolding_all rfl)
  · exact (c4_extract.1 "500g".data).2.2.2.1 500 (by with_unfolding_all rfl)
      (by with_unfolding_all rfl) (by with_unfolding_all rfl)

/-! ### Claim C9: per-row error fallback -/

/-- Claim C9: when any stage of single-item parsing fails, the row does
not abort the batch: `parse_single_item` returns the `오류` fallback
record with empty weight and unit, `is_bulk` false, the original text
kept as the product name, and a recorded row-level warning. -/
theorem c9_error_fallback (stages : Text → Except Text ParsedProduct) (text e : Text)
    (h : stages text = Except.error e) :
    parse_single_item stages text =
      ({ original_text := text, product_name := text, weight := [], unit := [],
         is_bulk := false, category := "오류".data }, ["파싱 실패: ".data ++ e]) ∧
    (parse_single_item stages text).2 ≠ [] := by
  unfold parse_single_item
  rw [h]
  exact ⟨rfl, by simp⟩

/-- Claim C9, witness: a pipeline failing with a concrete message. -/
theorem c9_witness :
    parse_single_item (fun _ => Except.error "division by zero".data) "깐마늘 5kg".data =
      ({ original_text := "깐마늘 5kg".data, product_name := "깐마늘 5kg".data, weight := [],
         unit := [], is_bulk := false, category := "오류".data },
       ["파싱 실패: division by zero".data]) := by
  rw [(c9_error_fallback (fun _ => Except.error "division by zero".data) "깐마늘 5kg".data
    "division by zero".data rfl).1]
  with_unfolding_all rfl

/-! ### Claim C8: the overweight detector -/

theorem heavyRowsGo_mem (rows : List HeavyRow) : ∀ (s j : Nat),
    j ∈ heavyRowsGo s rows ↔
      ∃ i r, rows[i]? = some r ∧ j = s + i ∧
        ∃ q w, to_numeric r.quantity = some q ∧ to_numeric r.weight = some w ∧ q * w > 10 := by
  induction rows with
  | nil => intro s j; simp [heavyRowsGo]
  | cons r rest ih =>
    intro s j
    constructor
    · intro hj
      cases hq : to_numeric r.quantity with
      | none =>
        simp only [heavyRowsGo, hq] at hj
        obtain ⟨i, r', hi, hji, cond⟩ := (ih (s + 1) j).mp hj
        exact ⟨i + 1, r', by simpa using hi, by omega, cond⟩
      | some q =>
        cases hw : to_numeric r.weight with
        | none =>
          simp only [heavyRowsGo, hq, hw] at hj
          obtain ⟨i, r', hi, hji, cond⟩ := (ih (s + 1) j).mp hj
          exact ⟨i + 1, r', by simpa using hi, by omega, cond⟩
        | some w =>
          simp only [heavyRowsGo, hq, hw] at hj
          by_cases hgt : q * w > 10
          · rw [if_pos hgt] at hj
            rcases List.mem_cons.mp hj with h | hj
            · exact ⟨0, r, by simp, by omega, q, w, hq, hw, hgt⟩
            · obtain ⟨i, r', hi, hji, cond⟩ := (ih (s + 1) j).mp hj
              exact ⟨i + 1, r', by simpa using hi, by omega, cond⟩
          · rw [if_neg hgt] at hj
            obtain ⟨i, r', hi, hji, cond⟩ := (ih (s + 1) j).mp hj
            exact ⟨i + 1, r', by simpa using hi, by omega, cond⟩
    · rintro ⟨i, r', hi, hji, q, w, hq, hw, hgt⟩
      cases i with
      | zero =>
        have hr : r' = r := by simpa using hi.symm
        subst hr
        subst hji
        simp only [heavyRowsGo, hq, hw, if_pos hgt]
        simp
      | succ i =>
        have hi' : rest[i]? = some r' := by simpa using hi
        have hmem : j ∈ heavyRowsGo (s + 1) rest :=
          (ih (s + 1) j).mpr ⟨i, r', hi', by omega, q, w, hq, hw, hgt⟩
        cases hq2 : to_numeric r.quantity with
        | none => simpa [heavyRowsGo, hq2] using hmem
        | some q2 =>
          cases hw2 : to_numeric r.weight with
          | none => simpa [heavyRowsGo, hq2, hw2] using hmem
          | some w2 =>
            by_cases hgt2 : q2 * w2 > 10
            · simp only [heavyRowsGo, hq2, hw2, if_pos hgt2]
              exact List.mem_cons_of_mem _ hmem
            · simpa [heavyRowsGo, hq2, hw2, if_neg hgt2] using hmem

/-- Claim C8: `find_heavy_order_rows` flags a row exactly when its
numeric quantity times its numeric unit weight strictly exceeds 10 kg;
rows where either cell fails `to_numeric` coercion are skipped. -/
theorem c8_heavy (rows : List HeavyRow) (i : Nat) (r : HeavyRow) (h : rows[i]? = some r) :
    i ∈ find_heavy_order_rows rows ↔
      ∃ q w, to_numeric r.quantity = some q ∧ to_numeric r.weight = some w ∧ q * w > 10 := by
  unfold find_heavy_order_rows
  rw [heavyRowsGo_mem rows 0 i]
  constructor
  · rintro ⟨i', r', hi', hji, cond⟩
    have hii : i' = i := by omega
    subst hii
    have hr : r' = r := by rw [h] at hi'; exact (Option.some.inj hi').symm
    subst hr
    exact cond
  · intro cond
    exact ⟨i, r, h, by omega, cond⟩

/-- Claim C8, witness: quantity 3 at 4.0 kg (12 kg) is flagged,
quantity 2 at 4.0 kg (8 kg) is not. -/
theorem c8_witness :
    0 ∈ find_heavy_order_rows
        [⟨PCell.num 3, PCell.str "4.0".data⟩, ⟨PCell.num 2, PCell.str "4.0".data⟩] ∧
    1 ∉ find_heavy_order_rows
        [⟨PCell.num 3, PCell.str "4.0".data⟩, ⟨PCell.num 2, PCell.str "4.0".data⟩] := by
  constructor
  · exact (c8_heavy _ 0 ⟨PCell.num 3, PCell.str "4.0".data⟩ rfl).mpr
      ⟨3, 4, rfl, of_decide_eq_true (by with_unfolding_all rfl), by norm_num⟩
  · intro hmem
    obtain ⟨q, w, hq, hw, hgt⟩ :=
      (c8_heavy _ 1 ⟨PCell.num 2, PCell.str "4.0".data⟩ rfl).mp hmem
    have hq2 : q = 2 := by simpa [to_numeric] using hq.symm
    have hw4 : w = 4 := by
      have h4 : to_numeric (PCell.str "4.0".data) = some 4 :=
        of_decide_eq_true (by with_unfolding_all rfl)
      rw [h4] at hw
      exact (Option.some.inj hw).symm
    rw [hq2, hw4] at hgt
    norm_num at hgt

/-! ### Claims C10 and C2: aggregation behaviour -/

theorem is_bulk_product_marker (n : Text)
    (hmark : containsEx "업소용".data n = true ∨ containsEx "** 업 소 용 **".data n = true) :
    ∀ b : Bool, is_bulk_product n b = true := by
  intro b
  cases b
  · rcases hmark with h | h <;> simp [is_bulk_product, h]
  · simp [is_bulk_product]

theorem aggLookup_store_self (s : List (Text × AggData)) (k : Text) (v : AggData) :
    aggLookup (aggStore s k v) k = some v := by
  induction s with
  | nil => simp [aggStore, aggLookup]
  | cons e rest ih =>
    obtain ⟨k0, v0⟩ := e
    by_cases h : k0 = k
    · subst h
      simp [aggStore, aggLookup]
    · simp only [aggStore, if_neg h]
      simpa [aggLookup, List.find?_cons, h] using ih

/-- Claim C10: a product whose name carries the `업소용` substring or
the spaced marker is aggregated as bulk even when the row's `is_bulk`
flag is false: the state update is invariant under flipping the flag,
and the row takes the bulk path — verbatim-name key, quantity-count
accumulation, and `is_bulk` set on the entry. -/
theorem c10_bulk_marker (state : AggState) (row : OrderRow) (file : Text)
    (hmark : containsEx "업소용".data row.product_name = true ∨
             containsEx "** 업 소 용 **".data row.product_name = true) :
    (add_order_row state { row with is_bulk := false } file =
      add_order_row state { row with is_bulk := true } file) ∧
    (∀ w : ℚ, 0 < row.quantity → row.product_name ≠ [] → row.product_name ≠ "nan".data →
      row.weight ≠ [] → row.weight ≠ "nan".data → pyFloat row.weight = some w →
      ∃ a : AggData,
        aggLookup (add_order_row state row file).aggregation_data
            (row.category ++ '_' :: row.product_name) = some a ∧
        a.quantity = ((aggLookup state.aggregation_data
            (row.category ++ '_' :: row.product_name)).getD defaultAggData).quantity
            + (row.quantity : ℚ) ∧
        a.is_bulk = true) := by
  have hbulk := is_bulk_product_marker row.product_name hmark
  constructor
  · simp only [add_order_row, generate_aggregation_key]
    simp [hbulk]
  · intro w hq hn1 hn2 hw1 hw2 hw
    have hguard : ¬(row.quantity ≤ 0 ∨ row.product_name = [] ∨ row.product_name = "nan".data) := by
      push_neg
      exact ⟨by omega, hn1, hn2⟩
    have hkey : generate_aggregation_key row.product_name row.weight row.category row.is_bulk =
        row.category ++ '_' :: row.product_name := by
      unfold generate_aggregation_key
      rw [if_pos (Or.inl (hbulk row.is_bulk))]
    simp only [add_order_row, if_neg hguard, hkey, if_pos (And.intro hw1 hw2), hw,
      if_pos (Or.inl (hbulk row.is_bulk))]
    refine ⟨_, aggLookup_store_self _ _ _, by simp, by simp [hbulk row.is_bulk]⟩

/-- Claim C10, witness: a row named with the bare `업소용` substring and
flag false, aggregated from the empty state. -/
theorem c10_witness :
    (add_order_row emptyAggState
      { product_name := "업소용 깐마늘 10kg".data, weight := "10.0".data,
        category := "깐마늘".data, is_bulk := false, quantity := 2 } "a.xlsx".data =
     add_order_row emptyAggState
      { product_name := "업소용 깐마늘 10kg".data, weight := "10.0".data,
        category := "깐마늘".data, is_bulk := true, quantity := 2 } "a.xlsx".data) ∧
    ∃ a : AggData,
      aggLookup (add_order_row emptyAggState
        { product_name := "업소용 깐마늘 10kg".data, weight := "10.0".data,
          category := "깐마늘".data, is_bulk := false, quantity := 2 } "a.xlsx".data).aggregation_data
        ("깐마늘".data ++ '_' :: "업소용 깐마늘 10kg".data) = some a ∧
      a.quantity = ((aggLookup emptyAggState.aggregation_data
        ("깐마늘".data ++ '_' :: "업소용 깐마늘 10kg".data)).getD defaultAggData).quantity + (2 : ℚ) ∧
      a.is_bulk = true := by
  have h := c10_bulk_marker emptyAggState
    { product_name := "업소용 깐마늘 10kg".data, weight := "10.0".data,
      category := "깐마늘".data, is_bulk := false, quantity := 2 } "a.xlsx".data
    (Or.inl (of_decide_eq_true (by with_unfolding_all rfl)))
  exact ⟨h.1, h.2 10 (by decide) (by decide) (by decide) (by decide) (by decide)
    (of_decide_eq_true (by with_unfolding_all rfl))⟩

theorem add_order_row_bulk (state : AggState) (row : OrderRow) (f : Text) (v : ℚ)
    (hbulk : is_bulk_product row.product_name row.is_bulk = true ∨ row.category = "마늘쫑".data)
    (hq : 0 < row.quantity) (hn1 : row.product_name ≠ []) (hn2 : row.product_name ≠ "nan".data)
    (hwa : row.weight ≠ []) (hwb : row.weight ≠ "nan".data) (hv : pyFloat row.weight = some v) :
    add_order_row state row f =
      { aggregation_data :=
          aggStore state.aggregation_data (row.category ++ '_' :: row.product_name)
            { (aggLookup state.aggregation_data
                (row.category ++ '_' :: row.product_name)).getD defaultAggData with
              quantity := ((aggLookup state.aggregation_data
                (row.category ++ '_' :: row.product_name)).getD defaultAggData).quantity
                + (row.quantity : ℚ)
              total_weight := ((aggLookup state.aggregation_data
                (row.category ++ '_' :: row.product_name)).getD defaultAggData).total_weight
                + v * (row.quantity : ℚ)
              order_files :=
                if f ∈ ((aggLookup state.aggregation_data
                    (row.category ++ '_' :: row.product_name)).getD defaultAggData).order_files
                then ((aggLookup state.aggregation_data
                    (row.category ++ '_' :: row.product_name)).getD defaultAggData).order_files
                else ((aggLookup state.aggregation_data
                    (row.category ++ '_' :: row.product_name)).getD defaultAggData).order_files ++ [f]
              unit_weight := v
              category := row.category
              is_bulk := is_bulk_product row.product_name row.is_bulk }
        total_orders_processed := state.total_orders_processed + 1 } := by
  have hguard : ¬(row.quantity ≤ 0 ∨ row.product_name = [] ∨ row.product_name = "nan".data) := by
    push_neg; exact ⟨by omega, hn1, hn2⟩
  have hkey : generate_aggregation_key row.product_name row.weight row.category row.is_bulk =
      row.category ++ '_' :: row.product_name := by
    unfold generate_aggregation_key; rw [if_pos hbulk]
  unfold add_order_row
  rw [if_neg hguard, hkey,
    if_pos (⟨hwa, hwb⟩ : row.weight ≠ [] ∧ row.weight ≠ "nan".data)]
  simp only [hv]
  rw [if_pos hbulk]

theorem add_order_row_general (state : AggState) (row : OrderRow) (f : Text) (v : ℚ)
    (hbulk : is_bulk_product row.product_name row.is_bulk = false)
    (hstalk : row.category ≠ "마늘쫑".data) (hfeet : row.category ≠ "닭발".data)
    (hq : 0 < row.quantity) (hn1 : row.product_name ≠ []) (hn2 : row.product_name ≠ "nan".data)
    (hwa : row.weight ≠ []) (hwb : row.weight ≠ "nan".data) (hv : pyFloat row.weight = some v) :
    add_order_row state row f =
      { aggregation_data :=
          aggStore state.aggregation_data
            (row.category ++ '_' :: remove_weight_from_name row.product_name)
            { (aggLookup state.aggregation_data
                (row.category ++ '_' :: remove_weight_from_name row.product_name)).getD
                  defaultAggData with
              quantity := ((aggLookup state.aggregation_data
                (row.category ++ '_' :: remove_weight_from_name row.product_name)).getD
                  defaultAggData).quantity + v * (row.quantity : ℚ) / 1
              total_weight := ((aggLookup state.aggregation_data
                (row.category ++ '_' :: remove_weight_from_name row.product_name)).getD
                  defaultAggData).total_weight + v * (row.quantity : ℚ)
              order_files :=
                if f ∈ ((aggLookup state.aggregation_data
                    (row.category ++ '_' :: remove_weight_from_name row.product_name)).getD
                      defaultAggData).order_files
                then ((aggLookup state.aggregation_data
                    (row.category ++ '_' :: remove_weight_from_name row.product_name)).getD
                      defaultAggData).order_files
                else ((aggLookup state.aggregation_data
                    (row.category ++ '_' :: remove_weight_from_name row.product_name)).getD
                      defaultAggData).order_files ++ [f]
              unit_weight := v
              category := row.category
              is_bulk := false }
        total_orders_processed := state.total_orders_processed + 1 } := by
  have hguard : ¬(row.quantity ≤ 0 ∨ row.product_name = [] ∨ row.product_name = "nan".data) := by
    push_neg; exact ⟨by omega, hn1, hn2⟩
  have hnotbulk : ¬(is_bulk_product row.product_name row.is_bulk = true ∨
      row.category = "마늘쫑".data) := by
    push_neg; exact ⟨by simp [hbulk], hstalk⟩
  have hkey : generate_aggregation_key row.product_name row.weight row.category row.is_bulk =
      row.category ++ '_' :: remove_weight_from_name row.product_name := by
    unfold generate_aggregation_key; rw [if_neg hnotbulk, if_neg hfeet]
  unfold add_order_row
  rw [if_neg hguard, hkey,
    if_pos (⟨hwa, hwb⟩ : row.weight ≠ [] ∧ row.weight ≠ "nan".data)]
  simp only [hv]
  rw [if_neg hnotbulk, if_neg hfeet, hbulk]

/-- Claim C2: grouping identity of the aggregator.  Two bulk-tagged (or
stalk-category) rows under the same weight-stripped base name but
different verbatim names key verbatim and stay two distinct
`PackingItem`s; two non-bulk rows of the same base product at different
weights share the weight-stripped key and merge into one
weight-denominated total. -/
theorem c2_aggregation_merge (cat n1 n2 w1 w2 f : Text) (q1 q2 : Int) (v1 v2 : ℚ) (b1 b2 : Bool)
    (hq1 : 0 < q1) (hq2 : 0 < q2)
    (hn1a : n1 ≠ []) (hn1b : n1 ≠ "nan".data) (hn2a : n2 ≠ []) (hn2b : n2 ≠ "nan".data)
    (hw1a : w1 ≠ []) (hw1b : w1 ≠ "nan".data) (hv1 : pyFloat w1 = some v1)
    (hw2a : w2 ≠ []) (hw2b : w2 ≠ "nan".data) (hv2 : pyFloat w2 = some v2)
    (hv1pos : 0 < v1) (hv2pos : 0 < v2) :
    ((is_bulk_product n1 b1 = true ∨ cat = "마늘쫑".data) →
     (is_bulk_product n2 b2 = true ∨ cat = "마늘쫑".data) →
     n1 ≠ n2 → remove_weight_from_name n1 = remove_weight_from_name n2 →
     generate_aggregation_key n1 w1 cat b1 ≠ generate_aggregation_key n2 w2 cat b2 ∧
     (generate_packing_list (add_order_row (add_order_row emptyAggState
        ⟨n1, w1, cat, b1, q1⟩ f) ⟨n2, w2, cat, b2, q2⟩ f)).length = 2) ∧
    (is_bulk_product n1 b1 = false → is_bulk_product n2 b2 = false →
     cat ≠ "마늘쫑".data → cat ≠ "닭발".data →
     remove_weight_from_name n1 = remove_weight_from_name n2 →
     generate_aggregation_key n1 w1 cat b1 = generate_aggregation_key n2 w2 cat b2 ∧
     ∃ a : AggData,
       (add_order_row (add_order_row emptyAggState ⟨n1, w1, cat, b1, q1⟩ f)
          ⟨n2, w2, cat, b2, q2⟩ f).aggregation_data =
         [(cat ++ '_' :: remove_weight_from_name n1, a)] ∧
       a.quantity = v1 * (q1 : ℚ) + v2 * (q2 : ℚ) ∧
       a.total_weight = v1 * (q1 : ℚ) + v2 * (q2 : ℚ) ∧
       generate_packing_list (add_order_row (add_order_row emptyAggState
          ⟨n1, w1, cat, b1, q1⟩ f) ⟨n2, w2, cat, b2, q2⟩ f) =
         [packingItemOf (cat ++ '_' :: remove_weight_from_name n1) a]) := by
  constructor
  · intro hb1 hb2 hne12 _
    have hkeys : (cat ++ '_' :: n1) ≠ (cat ++ '_' :: n2) := by
      intro h
      apply hne12
      have h2 := List.append_cancel_left h
      simpa using h2
    have hadd1 := add_order_row_bulk emptyAggState ⟨n1, w1, cat, b1, q1⟩ f v1 hb1 hq1
      hn1a hn1b hw1a hw1b hv1
    have hadd2 := add_order_row_bulk (add_order_row emptyAggState ⟨n1, w1, cat, b1, q1⟩ f)
      ⟨n2, w2, cat, b2, q2⟩ f v2 hb2 hq2 hn2a hn2b hw2a hw2b hv2
    constructor
    · unfold generate_aggregation_key
      rw [if_pos hb1, if_pos hb2]
      exact hkeys
    · rw [hadd2, hadd1]
      have hposq1 : (0 : ℚ) < (q1 : ℚ) := by exact_mod_cast hq1
      have hposq2 : (0 : ℚ) < (q2 : ℚ) := by exact_mod_cast hq2
      have hbeq : ((cat ++ '_' :: n1) == (cat ++ '_' :: n2)) = false := by
        simp [hkeys]
      unfold generate_packing_list
      simp only [emptyAggState, aggStore, aggLookup, List.find?, Option.getD, defaultAggData,
        if_neg hkeys]
      simp [hkeys, hbeq, hposq1, hposq2]
  · intro hb1 hb2 hstalk hfeet hbase
    have hadd1 := add_order_row_general emptyAggState ⟨n1, w1, cat, b1, q1⟩ f v1 hb1 hstalk hfeet
      hq1 hn1a hn1b hw1a hw1b hv1
    have hadd2 := add_order_row_general (add_order_row emptyAggState ⟨n1, w1, cat, b1, q1⟩ f)
      ⟨n2, w2, cat, b2, q2⟩ f v2 hb2 hstalk hfeet hq2 hn2a hn2b hw2a hw2b hv2
    constructor
    · unfold generate_aggregation_key
      have hnb1 : ¬(is_bulk_product n1 b1 = true ∨ cat = "마늘쫑".data) := by
        push_neg; exact ⟨by simp [hb1], hstalk⟩
      have hnb2 : ¬(is_bulk_product n2 b2 = true ∨ cat = "마늘쫑".data) := by
        push_neg; exact ⟨by simp [hb2], hstalk⟩
      rw [if_neg hnb1, if_neg hnb2, if_neg hfeet, if_neg hfeet, hbase]
    · have hposq1 : (0 : ℚ) < (q1 : ℚ) := by exact_mod_cast hq1
      have hposq2 : (0 : ℚ) < (q2 : ℚ) := by exact_mod_cast hq2
      have hsum : (0 : ℚ) < v1 * (q1 : ℚ) + v2 * (q2 : ℚ) :=
        add_pos (mul_pos hv1pos hposq1) (mul_pos hv2pos hposq2)
      have hstate : (add_order_row (add_order_row emptyAggState ⟨n1, w1, cat, b1, q1⟩ f)
          ⟨n2, w2, cat, b2, q2⟩ f).aggregation_data =
          [(cat ++ '_' :: remove_weight_from_name n1,
            { quantity := v1 * (q1 : ℚ) + v2 * (q2 : ℚ)
              total_weight := v1 * (q1 : ℚ) + v2 * (q2 : ℚ)
              order_files := [f]
              unit_weight := v2
              unit := "KG".data
              category := cat
              is_bulk := false })] := by
        rw [hadd2, hadd1, ← hbase]
        simp [emptyAggState, aggStore, aggLookup, List.find?, defaultAggData]
      refine ⟨_, hstate, rfl, rfl, ?_⟩
      unfold generate_packing_list
      rw [hstate]
      simp [hsum]

/-- Claim C2, witness: two bulk rows of the same base name at 5 kg and
10 kg key apart and yield two packing items; two plain rows of the same
base name at 1 kg and 2 kg share one key. -/
theorem c2_witness :
    generate_aggregation_key "** 업 소 용 ** 대서 깐마늘 5kg".data "5.0".data
        "깐마늘".data true ≠
      generate_aggregation_key "** 업 소 용 ** 대서 깐마늘 10kg".data "10.0".data
        "깐마늘".data true ∧
    (generate_packing_list (add_order_row (add_order_row emptyAggState
        ⟨"** 업 소 용 ** 대서 깐마늘 5kg".data, "5.0".data, "깐마늘".data, true, 1⟩
        "a.xlsx".data)
        ⟨"** 업 소 용 ** 대서 깐마늘 10kg".data, "10.0".data, "깐마늘".data, true, 1⟩
        "a.xlsx".data)).length = 2 ∧
    generate_aggregation_key "대서 깐마늘 1kg".data "1.0".data "깐마늘".data false =
      generate_aggregation_key "대서 깐마늘 2kg".data "2.0".data "깐마늘".data false := by
  have h1 := (c2_aggregation_merge "깐마늘".data "** 업 소 용 ** 대서 깐마늘 5kg".data
    "** 업 소 용 ** 대서 깐마늘 10kg".data "5.0".data "10.0".data "a.xlsx".data 1 1 5 10
    true true (by decide) (by decide) (by decide) (by decide) (by decide) (by decide)
    (by decide) (by decide) (of_decide_eq_true (by with_unfolding_all rfl))
    (by decide) (by decide) (of_decide_eq_true (by with_unfolding_all rfl))
    (by norm_num) (by norm_num)).1
    (Or.inl (by decide)) (Or.inl (by decide)) (by decide)
    (of_decide_eq_true (by with_unfolding_all rfl))
  have h2 := (c2_aggregation_merge "깐마늘".data "대서 깐마늘 1kg".data
    "대서 깐마늘 2kg".data "1.0".data "2.0".data "a.xlsx".data 1 1 1 2
    false false (by decide) (by decide) (by decide) (by decide) (by decide) (by decide)
    (by decide) (by decide) (of_decide_eq_true (by with_unfolding_all rfl))
    (by decide) (by decide) (of_decide_eq_true (by with_unfolding_all rfl))
    (by norm_num) (by norm_num)).2
    (by decide) (by decide) (by decide) (by decide)
    (of_decide_eq_true (by with_unfolding_all rfl))
  exact ⟨h1.1, h1.2, h2.1⟩

/-! ### Order lemmas for the sort embedding -/

theorem textLeB_total : ∀ a b : Text, textLeB a b = true ∨ textLeB b a = true := by
  intro a
  induction a with
  | nil => intro b; left; rfl
  | cons x as_ ih =>
    intro b
    cases b with
    | nil => right; rfl
    | cons y bs =>
      by_cases hxy : x = y
      · subst hxy
        rcases ih bs with h | h
        · left; simpa [textLeB] using h
        · right; simpa [textLeB] using h
      · rcases lt_trichotomy x y with hlt | heq | hgt
        · left; simp [textLeB, hxy, hlt]
        · exact absurd heq hxy
        · right; simp [textLeB, Ne.symm hxy, hgt]

theorem textLeB_trans : ∀ a b c : Text, textLeB a b = true → textLeB b c = true →
    textLeB a c = true := by
  intro a
  induction a with
  | nil => intro b c _ _; rfl
  | cons x as_ ih =>
    intro b c hab hbc
    cases b with
    | nil => simp [textLeB] at hab
    | cons y bs =>
      cases c with
      | nil => simp [textLeB] at hbc
      | cons z cs =>
        by_cases hxy : x = y
        · subst hxy
          by_cases hyz : x = z
          · subst hyz
            simp only [textLeB, if_pos rfl] at hab hbc ⊢
            exact ih bs cs hab hbc
          · simp only [textLeB, if_pos rfl] at hab
            simpa [textLeB, hyz] using hbc
        · by_cases hyz : y = z
          · subst hyz
            simpa [textLeB, hxy] using hab
          · simp only [textLeB, if_neg hxy] at hab
            simp only [textLeB, if_neg hyz] at hbc
            have hlt : x < z := lt_trans (of_decide_eq_true hab) (of_decide_eq_true hbc)
            simp [textLeB, ne_of_lt hlt, hlt]

theorem textLeB_antisymm : ∀ a b : Text, textLeB a b = true → textLeB b a = true → a = b := by
  intro a
  induction a with
  | nil => intro b _ hba; cases b with
    | nil => rfl
    | cons y bs => simp [textLeB] at hba
  | cons x as_ ih =>
    intro b hab hba
    cases b with
    | nil => simp [textLeB] at hab
    | cons y bs =>
      by_cases hxy : x = y
      · subst hxy
        simp only [textLeB, if_pos rfl] at hab hba
        rw [ih bs hab hba]
      · simp only [textLeB, if_neg hxy] at hab
        simp only [textLeB, if_neg (Ne.symm hxy)] at hba
        exact absurd (of_decide_eq_true hba) (lt_asymm (of_decide_eq_true hab))

theorem rowLe2_total {α : Type} : ∀ a b : SortRow α, rowLe2 a b = true ∨ rowLe2 b a = true := by
  intro a b
  by_cases h : a.parsed = b.parsed
  · rcases le_total (temp_quantity_sort a) (temp_quantity_sort b) with hq | hq
    · left; simp [rowLe2, h, hq]
    · right; simp [rowLe2, h.symm, hq]
  · rcases textLeB_total a.parsed b.parsed with ht | ht
    · left; simp [rowLe2, h, ht]
    · right; simp [rowLe2, Ne.symm h, ht]

theorem rowLe2_trans {α : Type} : ∀ a b c : SortRow α, rowLe2 a b = true → rowLe2 b c = true →
    rowLe2 a c = true := by
  intro a b c hab hbc
  by_cases hab' : a.parsed = b.parsed
  · by_cases hbc' : b.parsed = c.parsed
    · have hac : a.parsed = c.parsed := hab'.trans hbc'
      simp only [rowLe2, if_pos hab'] at hab
      simp only [rowLe2, if_pos hbc'] at hbc
      simp only [rowLe2, if_pos hac]
      exact decide_eq_true (le_trans (of_decide_eq_true hab) (of_decide_eq_true hbc))
    · have hac : a.parsed ≠ c.parsed := by rw [hab']; exact hbc'
      simp only [rowLe2, if_neg hbc'] at hbc
      simp only [rowLe2, if_neg hac]
      rw [hab']
      exact hbc
  · by_cases hbc' : b.parsed = c.parsed
    · have hac : a.parsed ≠ c.parsed := by rw [← hbc']; exact hab'
      simp only [rowLe2, if_neg hab'] at hab
      simp only [rowLe2, if_neg hac]
      rw [← hbc']
      exact hab
    · simp only [rowLe2, if_neg hab'] at hab
      simp only [rowLe2, if_neg hbc'] at hbc
      by_cases hac : a.parsed = c.parsed
      · exfalso
        apply hab'
        apply textLeB_antisymm a.parsed b.parsed hab
        rw [hac]
        exact hbc
      · simp only [rowLe2, if_neg hac]
        exact textLeB_trans a.parsed b.parsed c.parsed hab hbc

theorem rowLe3_total {α : Type} (f : SortRow α → Bool) :
    ∀ a b : SortRow α, rowLe3 f a b = true ∨ rowLe3 f b a = true := by
  intro a b
  by_cases h : f a = f b
  · rcases rowLe2_total a b with ht | ht
    · left; simp [rowLe3, h, ht]
    · right; simp [rowLe3, h.symm, ht]
  · cases hfa : f a
    · right
      have hfb : f b = true := by
        cases hfb : f b
        · rw [hfa, hfb] at h; exact absurd rfl h
        · rfl
      have hne : f b ≠ f a := by rw [hfa, hfb]; simp
      simp only [rowLe3, if_neg hne]
      exact hfb
    · left
      simp only [rowLe3, if_neg h]
      exact hfa

theorem rowLe3_trans {α : Type} (f : SortRow α → Bool) :
    ∀ a b c : SortRow α, rowLe3 f a b = true → rowLe3 f b c = true → rowLe3 f a c = true := by
  intro a b c hab hbc
  by_cases hab' : f a = f b
  · by_cases hbc' : f b = f c
    · have hac : f a = f c := hab'.trans hbc'
      simp only [rowLe3, if_pos hab'] at hab
      simp only [rowLe3, if_pos hbc'] at hbc
      simp only [rowLe3, if_pos hac]
      exact rowLe2_trans a b c hab hbc
    · have hac : f a ≠ f c := by rw [hab']; exact hbc'
      simp only [rowLe3, if_neg hbc'] at hbc
      simp only [rowLe3, if_neg hac]
      rw [hab']
      exact hbc
  · simp only [rowLe3, if_neg hab'] at hab
    by_cases hbc' : f b = f c
    · have hac : f a ≠ f c := by rw [← hbc']; exact hab'
      simp only [rowLe3, if_neg hac]
      exact hab
    · simp only [rowLe3, if_neg hbc'] at hbc
      rw [hab, hbc] at hab'
      exact absurd rfl hab'

/-! ### Claim C5: the sorting operation -/

/-- Claim C5: sorting is a row-atomic permutation — every input row
appears exactly once in the output with all its data (including the
opaque payload of untouched columns) intact; when the identity columns
resolved and at least one combined group exists, the output is ordered
by combined-first, then parsed name ascending, then numeric quantity
ascending; otherwise by parsed name then quantity alone. -/
theorem c5_sorting {α : Type} (hasIdCols : Bool) (rows : List (SortRow α)) :
    List.Perm (apply_sorting_to_parsed_file hasIdCols rows) rows ∧
    ((hasIdCols && rows.any (fun r => temp_is_combined rows r)) = true →
      List.Pairwise (fun a b => rowLe3 (temp_is_combined rows) a b = true)
        (apply_sorting_to_parsed_file hasIdCols rows)) ∧
    ((hasIdCols && rows.any (fun r => temp_is_combined rows r)) = false →
      List.Pairwise (fun a b => rowLe2 a b = true)
        (apply_sorting_to_parsed_file hasIdCols rows)) := by
  simp only [apply_sorting_to_parsed_file]
  by_cases hc : (hasIdCols && rows.any (fun r => temp_is_combined rows r)) = true
  · rw [if_pos hc]
    refine ⟨List.mergeSort_perm rows _, fun _ => ?_, fun hfalse => ?_⟩
    · exact @List.sorted_mergeSort (SortRow α) (rowLe3 (temp_is_combined rows))
        (fun a b c hab hbc => rowLe3_trans (temp_is_combined rows) a b c hab hbc)
        (fun a b => by rcases rowLe3_total (temp_is_combined rows) a b with h | h <;> simp [h])
        rows
    · rw [hc] at hfalse; exact absurd hfalse (by simp)
  · rw [if_neg hc]
    refine ⟨List.mergeSort_perm rows _, fun htrue => absurd htrue hc, fun _ => ?_⟩
    exact @List.sorted_mergeSort (SortRow α) rowLe2
      (fun a b c hab hbc => rowLe2_trans a b c hab hbc)
      (fun a b => by rcases rowLe2_total a b with h | h <;> simp [h])
      rows

/-- Claim C5, witness: the combined-first branch instantiated with
three rows, two of which share the full identity triple. -/
theorem c5_witness :
    List.Pairwise
      (fun a b =>
        rowLe3 (temp_is_combined
          [⟨"b".data, PCell.num 1, some "김".data, some "서울".data, some "가".data, 0⟩,
           ⟨"a".data, PCell.num 2, some "박".data, some "부산".data, some "나".data, 1⟩,
           ⟨"c".data, PCell.num 3, some "김".data, some "서울".data, some "가".data, 2⟩]) a b = true)
      (apply_sorting_to_parsed_file true
        [⟨"b".data, PCell.num 1, some "김".data, some "서울".data, some "가".data, 0⟩,
         ⟨"a".data, PCell.num 2, some "박".data, some "부산".data, some "나".data, 1⟩,
         ⟨"c".data, PCell.num 3, some "김".data, some "서울".data, some "가".data, 2⟩]) :=
  (c5_sorting true
    [⟨"b".data, PCell.num 1, some "김".data, some "서울".data, some "가".data, 0⟩,
     ⟨"a".data, PCell.num 2, some "박".data, some "부산".data, some "나".data, 1⟩,
     ⟨"c".data, PCell.num 3, some "김".data, some "서울".data, some "가".data, 2⟩]).2.1
    (by decide)

/-! ### Claim C6: empty identity fields and combined grouping -/

theorem mem_addToGroups : ∀ (gs : List (Text × List Nat)) (k : Text) (i j : Nat),
    (∃ g ∈ addToGroups gs k i, j ∈ g.2) → (∃ g ∈ gs, j ∈ g.2) ∨ j = i := by
  intro gs k i j
  induction gs with
  | nil =>
    rintro ⟨g, hg, hj⟩
    simp only [addToGroups, List.mem_singleton] at hg
    subst hg
    simp at hj
    right; exact hj
  | cons e rest ih =>
    rintro ⟨g, hg, hj⟩
    obtain ⟨k0, g0⟩ := e
    by_cases hk : k0 = k
    · simp only [addToGroups, if_pos hk] at hg
      rcases List.mem_cons.mp hg with h | h
      · subst h
        rcases List.mem_append.mp hj with h2 | h2
        · left; exact ⟨(k0, g0), List.mem_cons_self _ _, h2⟩
        · right; simpa using h2
      · left; exact ⟨g, List.mem_cons_of_mem _ h, hj⟩
    · simp only [addToGroups, if_neg hk] at hg
      rcases List.mem_cons.mp hg with h | h
      · subst h; left; exact ⟨(k0, g0), List.mem_cons_self _ _, hj⟩
      · rcases ih ⟨g, h, hj⟩ with h2 | h2
        · left; obtain ⟨g2, hg2, hj2⟩ := h2; exact ⟨g2, List.mem_cons_of_mem _ hg2, hj2⟩
        · right; exact h2

theorem mem_buildDeliveryGroups : ∀ (rows : List IdRow) (gs : List (Text × List Nat)) (s j : Nat),
    (∃ g ∈ buildDeliveryGroups gs s rows, j ∈ g.2) →
    (∃ g ∈ gs, j ∈ g.2) ∨
      ∃ i row, rows[i]? = some row ∧ j = s + i ∧ validDeliveryKey row ≠ none := by
  intro rows
  induction rows with
  | nil =>
    intro gs s j h
    left
    simpa [buildDeliveryGroups] using h
  | cons row rest ih =>
    intro gs s j h
    cases hvk : validDeliveryKey row with
    | some k =>
      simp only [buildDeliveryGroups, hvk] at h
      rcases ih (addToGroups gs k s) (s + 1) j h with h2 | h2
      · rcases mem_addToGroups gs k s j h2 with h3 | h3
        · left; exact h3
        · right; exact ⟨0, row, by simp, by omega, by simp [hvk]⟩
      · obtain ⟨i, row2, hi, hji, hv⟩ := h2
        right; exact ⟨i + 1, row2, by simpa using hi, by omega, hv⟩
    | none =>
      simp only [buildDeliveryGroups, hvk] at h
      rcases ih gs (s + 1) j h with h2 | h2
      · left; exact h2
      · obtain ⟨i, row2, hi, hji, hv⟩ := h2
        right; exact ⟨i + 1, row2, by simpa using hi, by omega, hv⟩

theorem mem_groups_foldr (gs : List (Text × List Nat)) (j : Nat) :
    j ∈ gs.foldr (fun g acc => g.2 ++ acc) [] ↔ ∃ g ∈ gs, j ∈ g.2 := by
  induction gs with
  | nil => simp
  | cons g rest ih => simp [List.mem_append, ih]

theorem two_le_countP {β : Type} (p : β → Bool) :
    ∀ (rows : List β) (i j : Nat) (ri rj : β), i ≠ j →
      rows[i]? = some ri → rows[j]? = some rj → p ri = true → p rj = true →
      2 ≤ rows.countP p := by
  intro rows
  induction rows with
  | nil => intro i j ri rj _ hi _ _ _; simp at hi
  | cons r rest ih =>
    intro i j ri rj hij hi hj hpi hpj
    cases i with
    | zero =>
      have hr : r = ri := by simpa using hi
      cases j with
      | zero => exact absurd rfl hij
      | succ j =>
        have hj' : rest[j]? = some rj := by simpa using hj
        have hmem : rj ∈ rest := List.getElem?_mem hj'
        have h1 : 0 < rest.countP p := List.countP_pos_iff.mpr ⟨rj, hmem, hpj⟩
        rw [List.countP_cons, hr, hpi]
        show 2 ≤ rest.countP p + 1
        omega
    | succ i =>
      have hi' : rest[i]? = some ri := by simpa using hi
      cases j with
      | zero =>
        have hr : r = rj := by simpa using hj
        have hmem : ri ∈ rest := List.getElem?_mem hi'
        have h1 : 0 < rest.countP p := List.countP_pos_iff.mpr ⟨ri, hmem, hpi⟩
        rw [List.countP_cons, hr, hpj]
        show 2 ≤ rest.countP p + 1
        omega
      | succ j =>
        have hj' : rest[j]? = some rj := by simpa using hj
        have h2 := ih i j ri rj (by omega) hi' hj' hpi hpj
        rw [List.countP_cons]
        omega

/-- Claim C6, counterexample: two rows with empty identity strings.
The highlighting detector excludes them (no combined rows), but the
sort's `_temp_is_combined` key matches them through the concatenated
empty-string key and marks both rows combined. -/
theorem c6_counterexample :
    find_combined_delivery_rows
      [⟨some [], some [], some []⟩, ⟨some [], some [], some []⟩] = [] ∧
    temp_is_combined (α := Unit)
      [⟨"a".data, PCell.na, some [], some [], some [], ()⟩,
       ⟨"b".data, PCell.na, some [], some [], some [], ()⟩]
      ⟨"a".data, PCell.na, some [], some [], some [], ()⟩ = true := by
  exact ⟨rfl, rfl⟩

/-- Claim C6, amended: only the highlighting detector
(`find_combined_delivery_rows`) excludes rows with an empty or missing
identity field from combined grouping; the sort's combined-first key
performs no such exclusion — any two rows (at distinct positions) whose
concatenated identity keys coincide, empty fields included, are marked
combined there. -/
theorem c6_amended :
    (∀ (rows : List IdRow) (idx : Nat) (row : IdRow), rows[idx]? = some row →
      validDeliveryKey row = none → idx ∉ find_combined_delivery_rows rows) ∧
    (∀ (α : Type) (rows : List (SortRow α)) (i j : Nat) (ri rj : SortRow α), i ≠ j →
      rows[i]? = some ri → rows[j]? = some rj →
      temp_delivery_key ri = temp_delivery_key rj → temp_is_combined rows ri = true) := by
  constructor
  · intro rows idx row hidx hvalid hmem
    unfold find_combined_delivery_rows at hmem
    rw [mem_groups_foldr] at hmem
    obtain ⟨g, hg, hj⟩ := hmem
    have hg2 : g ∈ buildDeliveryGroups [] 0 rows := (List.mem_filter.mp hg).1
    rcases mem_buildDeliveryGroups rows [] 0 idx ⟨g, hg2, hj⟩ with h | h
    · simp at h
    · obtain ⟨i, row2, hi, hii, hv⟩ := h
      have : i = idx := by omega
      subst this
      rw [hidx] at hi
      rw [Option.some.inj hi] at hvalid
      exact hv hvalid
  · intro α rows i j ri rj hij hi hj hkey
    unfold temp_is_combined
    have h2 : 2 ≤ rows.countP (fun r2 => temp_delivery_key r2 == temp_delivery_key ri) := by
      refine two_le_countP _ rows i j ri rj hij hi hj (by simp) (by simp [hkey])
    exact decide_eq_true (by omega)

/-- Claim C6, witness: the detector clause at a row with an empty
recipient, and the sort clause at two all-empty-identity rows. -/
theorem c6_witness :
    (0 ∉ find_combined_delivery_rows
      [⟨some [], some "서울시".data, some "01012345678".data⟩]) ∧
    temp_is_combined (α := Unit)
      [⟨"a".data, PCell.na, some [], some [], some [], ()⟩,
       ⟨"b".data, PCell.na, some [], some [], some [], ()⟩]
      ⟨"b".data, PCell.na, some [], some [], some [], ()⟩ = true := by
  constructor
  · exact c6_amended.1 _ 0 ⟨some [], some "서울시".data, some "01012345678".data⟩ rfl rfl
  · exact c6_amended.2 Unit _ 1 0
      ⟨"b".data, PCell.na, some [], some [], some [], ()⟩
      ⟨"a".data, PCell.na, some [], some [], some [], ()⟩
      (by decide) rfl rfl rfl

/-! ### Claim C7: the bulk threshold rule -/

theorem rule_variety_invariants (p : ParsedProduct) :
    (rule_variety p).category = p.category ∧ (rule_variety p).weight = p.weight ∧
    (rule_variety p).is_bulk = p.is_bulk := by
  simp only [rule_variety]
  split_ifs <;> simp

theorem rule_stem_marker_invariants (p : ParsedProduct) :
    (rule_stem_marker p).category = p.category ∧ (rule_stem_marker p).weight = p.weight ∧
    (rule_stem_marker p).is_bulk = p.is_bulk := by
  simp only [rule_stem_marker]
  split_ifs <;> simp

/-- Claim C7: for a 깐마늘/다진마늘 record with a parsed weight,
`apply_business_rules` sets `is_bulk` and prefixes the spaced bulk
marker exactly when the weight is at least the inclusive 5.0 kg
threshold and no bulk marker is already present in the product name at
the time of the check (after the variety and stem-marker rules). -/
theorem c7_bulk_threshold (p : ParsedProduct) (w : ℚ)
    (hcat : p.category = "깐마늘".data ∨ p.category = "다진마늘".data)
    (hflag : p.is_bulk = false)
    (hne : p.weight ≠ [])
    (hw : pyFloat p.weight = some w) :
    ((apply_business_rules p).is_bulk = true ↔
      (bulk_threshold ≤ w ∧
       containsEx "업소용".data (rule_stem_marker (rule_variety p)).product_name = false ∧
       containsEx "** 업 소 용 **".data (rule_stem_marker (rule_variety p)).product_name = false)) ∧
    ((bulk_threshold ≤ w ∧
       containsEx "업소용".data (rule_stem_marker (rule_variety p)).product_name = false ∧
       containsEx "** 업 소 용 **".data (rule_stem_marker (rule_variety p)).product_name = false) →
      (apply_business_rules p).product_name =
        collapseWs ("** 업 소 용 ** ".data ++ (rule_stem_marker (rule_variety p)).product_name)) := by
  have h1 := rule_variety_invariants p
  have h2 := rule_stem_marker_invariants (rule_variety p)
  have hqcat : (rule_stem_marker (rule_variety p)).category = p.category := by
    rw [h2.1, h1.1]
  have hqw : (rule_stem_marker (rule_variety p)).weight = p.weight := by
    rw [h2.2.1, h1.2.1]
  have hqb : (rule_stem_marker (rule_variety p)).is_bulk = false := by
    rw [h2.2.2, h1.2.2, hflag]
  have hcond : ((rule_stem_marker (rule_variety p)).category = "깐마늘".data ∨
      (rule_stem_marker (rule_variety p)).category = "다진마늘".data) ∧
      (rule_stem_marker (rule_variety p)).weight ≠ [] := by
    rw [hqcat, hqw]; exact ⟨hcat, hne⟩
  by_cases hge : bulk_threshold ≤ w
  · by_cases hmk :
        containsEx "업소용".data (rule_stem_marker (rule_variety p)).product_name = false ∧
        containsEx "** 업 소 용 **".data (rule_stem_marker (rule_variety p)).product_name = false
    · have hbt : rule_bulk_tag (rule_stem_marker (rule_variety p)) =
          { rule_stem_marker (rule_variety p) with
            product_name := "** 업 소 용 ** ".data ++ (rule_stem_marker (rule_variety p)).product_name
            is_bulk := true } := by
        unfold rule_bulk_tag
        rw [if_pos hcond, hqw, hw]
        show (if bulk_threshold ≤ w then _ else _) = _
        rw [if_pos hge, if_pos hmk]
        simp [hqw]
      unfold apply_business_rules
      rw [hbt]
      exact ⟨⟨fun _ => ⟨hge, hmk.1, hmk.2⟩, fun _ => rfl⟩, fun _ => rfl⟩
    · have hbt : rule_bulk_tag (rule_stem_marker (rule_variety p)) =
          rule_stem_marker (rule_variety p) := by
        unfold rule_bulk_tag
        rw [if_pos hcond, hqw, hw]
        show (if bulk_threshold ≤ w then _ else _) = _
        rw [if_pos hge, if_neg hmk]
      unfold apply_business_rules
      rw [hbt]
      constructor
      · constructor
        · intro habs; simp [rule_name_cleanup, hqb] at habs
        · rintro ⟨_, hc1, hc2⟩; exact absurd ⟨hc1, hc2⟩ hmk
      · rintro ⟨_, hc1, hc2⟩; exact absurd ⟨hc1, hc2⟩ hmk
  · have hbt : rule_bulk_tag (rule_stem_marker (rule_variety p)) =
        rule_stem_marker (rule_variety p) := by
      unfold rule_bulk_tag
      rw [if_pos hcond, hqw, hw]
      show (if bulk_threshold ≤ w then _ else _) = _
      rw [if_neg hge]
    unfold apply_business_rules
    rw [hbt]
    constructor
    · constructor
      · intro habs; simp [rule_name_cleanup, hqb] at habs
      · rintro ⟨hle, _, _⟩; exact absurd hle hge
    · rintro ⟨hle, _, _⟩; exact absurd hle hge

/-- Claim C7, witness: a peeled-garlic record at exactly 5.0 kg is
tagged bulk, and one at 4.99 kg is not. -/
theorem c7_witness :
    (apply_business_rules
      { original_text := "깐마늘 5kg".data, product_name := "대서 깐마늘 5kg".data,
        weight := "5.0".data, unit := "KG".data, is_bulk := false,
        category := "깐마늘".data }).is_bulk = true ∧
    (apply_business_rules
      { original_text := "깐마늘 4.99kg".data, product_name := "대서 깐마늘 4.99kg".data,
        weight := "4.99".data, unit := "KG".data, is_bulk := false,
        category := "깐마늘".data }).is_bulk = false := by
  constructor
  · exact (c7_bulk_threshold _ 5 (Or.inl rfl) rfl (by decide)
      (of_decide_eq_true (by with_unfolding_all rfl))).1.mpr
      ⟨by norm_num [bulk_threshold], of_decide_eq_true (by with_unfolding_all rfl),
       of_decide_eq_true (by with_unfolding_all rfl)⟩
  · have h := (c7_bulk_threshold
      { original_text := "깐마늘 4.99kg".data, product_name := "대서 깐마늘 4.99kg".data,
        weight := "4.99".data, unit := "KG".data, is_bulk := false,
        category := "깐마늘".data } (499 / 100) (Or.inl rfl) rfl (by decide)
      (of_decide_eq_true (by with_unfolding_all rfl))).1
    have hnot : ¬((apply_business_rules
      { original_text := "깐마늘 4.99kg".data, product_name := "대서 깐마늘 4.99kg".data,
        weight := "4.99".data, unit := "KG".data, is_bulk := false,
        category := "깐마늘".data }).is_bulk = true) := by
      intro habs
      have hc := h.mp habs
      have : (5 : ℚ) ≤ 499 / 100 := by simpa [bulk_threshold] using hc.1
      norm_num at this
    simpa using hnot
